import Mathlib

/-!
# Knowledge-Library-MCP: hierarchical tool registry and dispatch

A shallow embedding of `mcp-server-go` (`main.go`, `tools/brave_search.go`,
`tools/yahoo_finance.go`) and theorems about its path walk, composite
dispatch and capability tree.

Conventions of the embedding:

* a Go `map[string]V` is an association list of entries (`GoMap V`); reading a
  key takes the entry stored under it, writing replaces it in place or adds it.
  A `nil` map reads like the empty map and is the empty list;
* the order in which a `range` statement visits a map is chosen by the Go
  runtime; it is an explicit argument (`RangeOrder`);
* a Go `(string, error)` result is `Returned.value result err`, a run-time panic
  is `Returned.panic`;
* the network, the environment variables and the standard-library functions
  whose code is outside the repository are fields of `Env`;
* calls through the `Tool` interface and requests sent to the network are
  recorded in traces, so that "is called" and "is not called" can be stated.
-/

set_option autoImplicit false

namespace MCP

/-! ## Go maps -/

/-- A Go `map[string]V`: its entries, keys pairwise distinct when built by `GoMap.set`. -/
abbrev GoMap (V : Type) := List (String × V)

namespace GoMap

variable {V : Type}

/-- The comma-ok read `v, ok := m[k]`: `none` stands for `ok = false`. -/
def get? : GoMap V → String → Option V
  | [], _ => none
  | (k', v) :: rest, k => if k' = k then some v else get? rest k

/-- The assignment `m[k] = v`. -/
def set : GoMap V → String → V → GoMap V
  | [], k, v => [(k, v)]
  | (k', v') :: rest, k, v => if k' = k then (k, v) :: rest else (k', v') :: set rest k v

/-- The keys of the map. -/
def keys (m : GoMap V) : List String := m.map Prod.fst

end GoMap

/-- The runtime's choice of iteration order for the `range` statements of one
run. `pick [] n` is the order in which the statement at hand visits the `n`
entries of its map; the statements executed while visiting entry `i` draw their
orders from `child i`. -/
structure RangeOrder where
  pick : List Nat → (n : Nat) → List (Fin n)
  perm : ∀ (p : List Nat) (n : Nat), (pick p n).Perm (List.finRange n)

/-- The choices left for the statements run while entry `i` is visited. -/
def RangeOrder.child (ro : RangeOrder) (i : Nat) : RangeOrder :=
  ⟨fun p => ro.pick (i :: p), fun p n => ro.perm (i :: p) n⟩

/-- The runtime that visits every map in the order of its entry list. -/
def RangeOrder.stored : RangeOrder :=
  ⟨fun _ n => List.finRange n, fun _ _ => List.Perm.refl _⟩

/-- The runtime that visits every map in the reverse order of its entry list. -/
def RangeOrder.reversed : RangeOrder :=
  ⟨fun _ n => (List.finRange n).reverse, fun _ _ => List.reverse_perm _⟩

/-- The order in which the `k`-th `range` statement of the function at hand
visits the entries of `m`, as positions in the entry list. -/
def RangeOrder.range (ro : RangeOrder) (k : Nat) {V : Type} (m : GoMap V) : List (Fin m.length) :=
  (ro.child k).pick [] m.length

/-- The choices for the calls made while that statement visits entry `i`. -/
def RangeOrder.visit (ro : RangeOrder) (k i : Nat) : RangeOrder :=
  (ro.child k).child i

/-! ## Dynamically typed values -/

/-- A `float64`, kept as its IEEE-754 bit pattern: the code only copies such values. -/
structure Float64 where
  bits : Nat
  deriving DecidableEq

/-- A Go `interface{}` value as found in a parameter mapping. Arrays and objects
are never inspected by the code and are kept as their JSON text. -/
inductive Value where
  | null
  | bool (b : Bool)
  | str (s : String)
  | float64 (x : Float64)
  | int (n : Int)
  | other (json : String)
  deriving DecidableEq

/-- The Go type `map[string]interface{}`. -/
abbrev Params := GoMap Value

/-- The type assertion `v, ok := params[key].(string)`. -/
def assertString (params : Params) (key : String) : String × Bool :=
  match params.get? key with
  | some (Value.str s) => (s, true)
  | _ => ("", false)

/-- The type assertion `v, ok := params[key].(int)`. -/
def assertInt (params : Params) (key : String) : Int × Bool :=
  match params.get? key with
  | some (Value.int n) => (n, true)
  | _ => (0, false)

/-- The type assertion `v, ok := params[key].(bool)`. -/
def assertBool (params : Params) (key : String) : Bool × Bool :=
  match params.get? key with
  | some (Value.bool b) => (b, true)
  | _ => (false, false)

/-! ## Standard-library string functions -/

/-- The Go function `strings.Split(s, sep)` for a one-character separator, on the characters of `s`. -/
def splitChars (sep : Char) : List Char → List (List Char)
  | [] => [[]]
  | c :: cs =>
    if c = sep then [] :: splitChars sep cs
    else
      match splitChars sep cs with
      | [] => [[c]]
      | seg :: rest => (c :: seg) :: rest

/-- The function `splitToolPath` of `main.go`: `strings.Split(path, ".")`. -/
def splitToolPath (path : String) : List String :=
  (splitChars '.' path.toList).map String.mk

/-- Unicode tables of the Go runtime for the runes above U+007F. -/
structure UnicodeTables where
  toTitle : Char → Char
  isLetter : Char → Bool
  isDigit : Char → Bool
  isSpace : Char → Bool

/-- The Go function `unicode.ToTitle`: `a`..`z` map to `A`..`Z`, other ASCII runes to themselves. -/
def unicodeToTitle (u : UnicodeTables) (r : Char) : Char :=
  if r.toNat ≤ 0x7F then
    if 'a'.toNat ≤ r.toNat ∧ r.toNat ≤ 'z'.toNat then Char.ofNat (r.toNat - 32) else r
  else u.toTitle r

/-- The helper `isSeparator` of Go's `strings` package. -/
def isSeparator (u : UnicodeTables) (r : Char) : Bool :=
  if r.toNat ≤ 0x7F then
    if '0'.toNat ≤ r.toNat ∧ r.toNat ≤ '9'.toNat then false
    else if 'a'.toNat ≤ r.toNat ∧ r.toNat ≤ 'z'.toNat then false
    else if 'A'.toNat ≤ r.toNat ∧ r.toNat ≤ 'Z'.toNat then false
    else if r = '_' then false
    else true
  else if u.isLetter r || u.isDigit r then false
  else u.isSpace r

/-- The mapping loop of `strings.Title`: `prev` is the rune seen before. -/
def titleChars (u : UnicodeTables) : Char → List Char → List Char
  | _, [] => []
  | prev, r :: rs =>
    (if isSeparator u prev then unicodeToTitle u r else r) :: titleChars u r rs

/-- The Go function `strings.Title`. -/
def stringsTitle (u : UnicodeTables) (s : String) : String :=
  String.mk (titleChars u ' ' s.toList)

/-! ## The tools package: data -/

/-- The struct `Param` of `brave_search.go` (`Type_` is its field `Type`). -/
structure Param where
  Type_ : String
  Required : Bool
  Description : String := ""
  deriving DecidableEq

/-- One element of the `results` array of a Brave response. -/
structure SearchResult where
  Title : String
  Description : String
  Url : String
  deriving DecidableEq

/-- One element of `indicators.quote` of a Yahoo chart response. -/
structure Quote where
  Open : List Float64
  High : List Float64
  Low : List Float64
  Close : List Float64
  Volume : List Int
  deriving DecidableEq

/-- One element of `chart.result` of a Yahoo chart response (the fields the code reads). -/
structure ChartResult where
  Timestamp : List Int
  Quote : List Quote
  deriving DecidableEq

/-- The struct `YahooChartResponse`; `Error` is `none` for a nil `chart.error`. -/
structure YahooChartResponse where
  Result : List ChartResult
  Error : Option String
  deriving DecidableEq

/-- The struct `StockPriceEntry` of `yahoo_finance.go`. -/
structure StockPriceEntry where
  Date : String
  Open : Float64
  High : Float64
  Low : Float64
  Close : Float64
  Volume : Int
  deriving DecidableEq

/-- The struct `StockPriceResponse` of `yahoo_finance.go`. -/
structure StockPriceResponse where
  Ticker : String
  Interval : String
  Period : String
  Prices : List StockPriceEntry
  deriving DecidableEq

/-- A request built by `http.NewRequest("GET", url, nil)` with headers set. -/
structure ApiRequest where
  url : String
  headers : List (String × String)
  deriving DecidableEq

/-- What `client.Do` hands back: the status code and the outcome of `io.ReadAll(resp.Body)`. -/
structure ApiResponse where
  StatusCode : Int
  Body : Except String String

/-- The world outside the tools package: environment variables, the network, and
the standard-library functions the tools call. An `Except.error` carries the
text of the Go error. -/
structure Env where
  unicode : UnicodeTables
  getenv : String → String
  queryEscape : String → String
  valuesEncode : List (String × String) → String
  newRequest : String → Option String
  clientDo : ApiRequest → Except String ApiResponse
  htmlUnescape : String → String
  unmarshalNews : String → Except String (List SearchResult)
  unmarshalWeb : String → Except String (List SearchResult)
  unmarshalChart : String → Except String YahooChartResponse
  formatDate : Int → String
  marshalStock : StockPriceResponse → Except String String

/-- What an `Execute` did besides returning. -/
inductive Effect where
  | call (child : String) (params : Params)
  | httpGet (req : ApiRequest)
  | print (text : String)
  deriving DecidableEq

/-- What a Go call of type `(string, error)` came back with. -/
inductive Returned where
  | value (result : String) (err : Option String)
  | panic (msg : String)
  deriving DecidableEq

/-- The outcome of one `Execute`: what it returned and the effects it had, in order. -/
structure ExecResult where
  ret : Returned
  trace : List Effect
  deriving DecidableEq

/-- The statement `return "", fmt.Errorf(msg)`. -/
def ExecResult.fail (msg : String) (trace : List Effect) : ExecResult :=
  ⟨Returned.value "" (some msg), trace⟩

/-- A value of the interface `Tool`: its five methods. `SubTools` is the entry
list of the returned map (`nil` reads as empty). -/
inductive Tool where
  | mk (Name : String) (Description : String) (Parameters : GoMap Param)
      (Execute : Env → Params → ExecResult) (SubTools : List (String × Tool))

namespace Tool

/-- The method `Name()`. -/
def Name : Tool → String
  | mk n _ _ _ _ => n

/-- The method `Description()`. -/
def Description : Tool → String
  | mk _ d _ _ _ => d

/-- The method `Parameters()`. -/
def Parameters : Tool → GoMap Param
  | mk _ _ p _ _ => p

/-- The method `Execute(params)`, run in the world `env`. -/
def Execute : Tool → Env → Params → ExecResult
  | mk _ _ _ e _ => e

/-- The method `SubTools()`. -/
def SubTools : Tool → GoMap Tool
  | mk _ _ _ _ s => s

end Tool

/-! ## brave_search.go: the leaf `braveWebSearchTool` -/

/-- The method `Parameters` of `braveWebSearchTool`. -/
def braveWebSearchTool.Parameters : GoMap Param :=
  [("query", ⟨"string", true, ""⟩),
   ("api_key", ⟨"string", false, ""⟩),
   ("search_type", ⟨"string", false, "Type of search: web, image, video, news"⟩),
   ("safesearch", ⟨"string", false, "Safe search level: strict, moderate, or off"⟩),
   ("count", ⟨"int", false, "Number of results to return"⟩),
   ("search_lang", ⟨"string", false, "Language for the search results"⟩),
   ("country", ⟨"string", false, "Country for the search results"⟩),
   ("spellcheck", ⟨"bool", false, "Enable or disable spellcheck"⟩)]

/-- The Markdown loop over the results: `i` is the index of the next result,
`unescape` is applied to its description. -/
def renderResults (unescape : String → String) : Nat → List SearchResult → String → String
  | _, [], markdown => markdown
  | i, result :: rest, markdown =>
    if i ≥ 3 then markdown
    else
      let markdown := if i > 0 then markdown ++ "\n" else markdown
      renderResults unescape (i + 1) rest
        (markdown ++ "\n- **" ++ result.Title ++ "**\n  " ++ result.Url ++ "\n  "
          ++ unescape result.Description)

/-- The request URL built by `braveWebSearchTool.Execute` from the parameters it reads. -/
def braveWebSearchTool.apiURL (env : Env) (searchType query safesearch : String) (count : Int)
    (searchLang country : String) (spellcheck : Bool) : String :=
  let apiURL := "https://api.search.brave.com/res/v1/" ++ searchType ++ "/search?q="
    ++ env.queryEscape query
  let queryParams : List (String × String) := []
  let queryParams := if safesearch ≠ "" then queryParams ++ [("safesearch", safesearch)] else queryParams
  let queryParams := if count > 0 then queryParams ++ [("count", toString count)] else queryParams
  let queryParams := if searchLang ≠ "" then queryParams ++ [("search_lang", searchLang)] else queryParams
  let queryParams := if country ≠ "" then queryParams ++ [("country", country)] else queryParams
  let queryParams :=
    if spellcheck then queryParams ++ [("spellcheck", "1")] else queryParams ++ [("spellcheck", "0")]
  if queryParams.length > 0 then apiURL ++ "&" ++ env.valuesEncode queryParams else apiURL

/-- The part of `braveWebSearchTool.Execute` after the response body was read. -/
def braveWebSearchTool.render (env : Env) (searchType body : String) (trace : List Effect) :
    ExecResult :=
  if searchType = "news" then
    match env.unmarshalNews body with
    | .error e => ExecResult.fail ("failed to parse response: " ++ e) trace
    | .ok results =>
      let markdown := renderResults id 0 results "## Brave News Search Results"
      let markdown := if results.length = 0 then markdown ++ "\nNo results found." else markdown
      ⟨Returned.value markdown none, trace⟩
  else
    match env.unmarshalWeb body with
    | .error e => ExecResult.fail ("failed to parse response: " ++ e) trace
    | .ok results =>
      let markdown := renderResults env.htmlUnescape 0 results "## Brave Web Search Results"
      let markdown := if results.length = 0 then markdown ++ "\nNo results found." else markdown
      ⟨Returned.value markdown none, trace⟩

/-- The method `Execute` of `braveWebSearchTool`. -/
def braveWebSearchTool.Execute (env : Env) (params : Params) : ExecResult :=
  let (query, ok) := assertString params "query"
  if !ok then ExecResult.fail "query must be a string" []
  else
    let apiKey := (assertString params "api_key").1
    let apiKey := if apiKey = "" then env.getenv "BRAVE_API_KEY" else apiKey
    let searchType := (assertString params "search_type").1
    let searchType := if searchType = "" then "web" else searchType
    let safesearch := (assertString params "safesearch").1
    let count := (assertInt params "count").1
    let searchLang := (assertString params "search_lang").1
    let country := (assertString params "country").1
    let spellcheck := (assertBool params "spellcheck").1
    let apiURL := braveWebSearchTool.apiURL env searchType query safesearch count searchLang
      country spellcheck
    match env.newRequest apiURL with
    | some e => ExecResult.fail ("failed to create request: " ++ e) []
    | none =>
      let req : ApiRequest :=
        ⟨apiURL, [("Accept", "application/json"), ("X-Subscription-Token", apiKey)]⟩
      match env.clientDo req with
      | .error e => ExecResult.fail ("failed to execute request: " ++ e) [Effect.httpGet req]
      | .ok resp =>
        if resp.StatusCode ≠ 200 then
          ExecResult.fail ("unexpected status code: " ++ toString resp.StatusCode)
            [Effect.httpGet req]
        else
          match resp.Body with
          | .error e => ExecResult.fail ("failed to read response body: " ++ e) [Effect.httpGet req]
          | .ok body =>
            braveWebSearchTool.render env searchType body
              [Effect.httpGet req, Effect.print ("Raw API Response: " ++ body ++ "\n")]

/-- A `braveWebSearchTool` value (`&braveWebSearchTool{}`) as a `Tool`. -/
def braveWebSearchTool : Tool :=
  Tool.mk "BraveSearch"
    "Search the web using the Brave Search API and return results in Markdown format"
    braveWebSearchTool.Parameters braveWebSearchTool.Execute []

/-! ## brave_search.go: the composite `WebTools` -/

/-- The method `Execute` of a `WebTools` value whose field `subTools` is as given. -/
def WebTools.Execute (subTools : GoMap Tool) (env : Env) (params : Params) : ExecResult :=
  let (op, ok) := assertString params "operation"
  if !ok then ExecResult.fail "operation must be a string" []
  else
    match subTools.get? (stringsTitle env.unicode op) with
    | none => ExecResult.fail ("operation '" ++ op ++ "' not found in WebTools") []
    | some tool =>
      let r := tool.Execute env params
      ⟨r.ret, Effect.call (stringsTitle env.unicode op) params :: r.trace⟩

/-- A `WebTools` value with the given field `subTools`, as a `Tool`. -/
def WebTools (subTools : GoMap Tool) : Tool :=
  Tool.mk "WebTools" "A collection of web-related tools"
    [("operation", ⟨"string", true, ""⟩)] (WebTools.Execute subTools) subTools

/-- The constructor `NewWebTools`. -/
def NewWebTools : Tool :=
  WebTools (GoMap.set [] "BraveSearch" braveWebSearchTool)

/-! ## yahoo_finance.go: the leaf `yahooStockPriceTool` -/

/-- The method `Parameters` of `yahooStockPriceTool`. -/
def yahooStockPriceTool.Parameters : GoMap Param :=
  [("ticker", ⟨"string", true, ""⟩),
   ("interval", ⟨"string", true, ""⟩),
   ("period", ⟨"string", false, ""⟩)]

/-- The message of the run-time panic for `xs[i]` with `i` out of range. -/
def indexPanic (i len : Nat) : String :=
  "runtime error: index out of range [" ++ toString i ++ "] with length " ++ toString len

/-- The indexing `xs[i]` of a slice: the element, or the panic message. -/
def index {α : Type} (xs : List α) (i : Nat) : Except String α :=
  match xs[i]? with
  | some x => .ok x
  | none => .error (indexPanic i xs.length)

/-- The body of the price loop for index `i`: the entry appended, or the panic message. -/
def yahooStockPriceTool.entry (env : Env) (result : ChartResult) (i : Nat) :
    Except String StockPriceEntry := do
  let ts ← index result.Timestamp i
  let t := env.formatDate ts
  let quote ← index result.Quote 0
  let o ← index quote.Open i
  let h ← index quote.High i
  let l ← index quote.Low i
  let c ← index quote.Close i
  let v ← index quote.Volume i
  pure ⟨t, o, h, l, c, v⟩

/-- The loop `for i := 0; i < len(result.Timestamp) && i < 5; i++` from index `i`
on, `prices` being the entries appended so far. -/
def yahooStockPriceTool.loop (env : Env) (result : ChartResult) (i : Nat)
    (prices : List StockPriceEntry) : Except String (List StockPriceEntry) :=
  if i < result.Timestamp.length ∧ i < 5 then
    match yahooStockPriceTool.entry env result i with
    | .error msg => .error msg
    | .ok entry => yahooStockPriceTool.loop env result (i + 1) (prices ++ [entry])
  else .ok prices
termination_by 5 - i
decreasing_by omega

/-- The part of `yahooStockPriceTool.Execute` after the response was parsed. -/
def yahooStockPriceTool.respond (env : Env) (ticker interval period : String)
    (chartResponse : YahooChartResponse) (trace : List Effect) : ExecResult :=
  if chartResponse.Result.length = 0 ∨ chartResponse.Error ≠ none then
    ExecResult.fail ("no stock data found for ticker " ++ ticker) trace
  else
    match index chartResponse.Result 0 with
    | .error msg => ⟨Returned.panic msg, trace⟩
    | .ok result =>
      if result.Timestamp.length = 0 ∨ result.Quote.length = 0 then
        ExecResult.fail ("no historical data available for ticker " ++ ticker) trace
      else
        match yahooStockPriceTool.loop env result 0 [] with
        | .error msg => ⟨Returned.panic msg, trace⟩
        | .ok prices =>
          match env.marshalStock ⟨ticker, interval, period, prices⟩ with
          | .error e => ExecResult.fail ("failed to marshal structured response: " ++ e) trace
          | .ok jsonData => ⟨Returned.value jsonData none, trace⟩

/-- The request URL built by `yahooStockPriceTool.Execute`. -/
def yahooStockPriceTool.apiURL (env : Env) (ticker interval period : String) : String :=
  "https://query1.finance.yahoo.com/v8/finance/chart/" ++ env.queryEscape ticker
    ++ "?interval=" ++ env.queryEscape interval ++ "&range=" ++ env.queryEscape period
    ++ "&includePrePost=false"

/-- The method `Execute` of `yahooStockPriceTool`. -/
def yahooStockPriceTool.Execute (env : Env) (params : Params) : ExecResult :=
  let (ticker, ok) := assertString params "ticker"
  if !ok then ExecResult.fail "ticker must be a string" []
  else
    let (interval, ok) := assertString params "interval"
    if !ok then ExecResult.fail "interval must be a string" []
    else
      let period := (assertString params "period").1
      let period := if period = "" then "1mo" else period
      let apiURL := yahooStockPriceTool.apiURL env ticker interval period
      match env.newRequest apiURL with
      | some e => ExecResult.fail ("failed to create request: " ++ e) []
      | none =>
        let req : ApiRequest :=
          ⟨apiURL, [("Accept", "application/json"), ("User-Agent", "mcp-server-go/1.0")]⟩
        match env.clientDo req with
        | .error e => ExecResult.fail ("failed to execute request: " ++ e) [Effect.httpGet req]
        | .ok resp =>
          if resp.StatusCode ≠ 200 then
            ExecResult.fail ("unexpected status code: " ++ toString resp.StatusCode)
              [Effect.httpGet req]
          else
            match resp.Body with
            | .error e =>
              ExecResult.fail ("failed to read response body: " ++ e) [Effect.httpGet req]
            | .ok body =>
              match env.unmarshalChart body with
              | .error e => ExecResult.fail ("failed to parse response: " ++ e) [Effect.httpGet req]
              | .ok chartResponse =>
                yahooStockPriceTool.respond env ticker interval period chartResponse
                  [Effect.httpGet req]

/-- A `yahooStockPriceTool` value (`&yahooStockPriceTool{}`) as a `Tool`. -/
def yahooStockPriceTool : Tool :=
  Tool.mk "YahooStockPrice"
    "Fetch historical stock prices from Yahoo Finance with a specified interval in structured JSON format"
    yahooStockPriceTool.Parameters yahooStockPriceTool.Execute []

/-! ## yahoo_finance.go: the composite `FinanceTools` -/

/-- The method `Execute` of a `FinanceTools` value whose field `subTools` is as given. -/
def FinanceTools.Execute (subTools : GoMap Tool) (env : Env) (params : Params) : ExecResult :=
  let (op, ok) := assertString params "operation"
  if !ok then ExecResult.fail "operation must be a string" []
  else
    match subTools.get? op with
    | none => ExecResult.fail ("operation '" ++ op ++ "' not found in FinanceTools") []
    | some tool =>
      let r := tool.Execute env params
      ⟨r.ret, Effect.call op params :: r.trace⟩

/-- A `FinanceTools` value with the given field `subTools`, as a `Tool`. -/
def FinanceTools (subTools : GoMap Tool) : Tool :=
  Tool.mk "FinanceTools" "A collection of financial tools"
    [("operation", ⟨"string", true, ""⟩)] (FinanceTools.Execute subTools) subTools

/-- The constructor `NewFinanceTools`. -/
def NewFinanceTools : Tool :=
  FinanceTools (GoMap.set [] "YahooStockPrice" yahooStockPriceTool)

/-! ## main.go: data -/

/-- The struct `MCPRequest`. -/
structure MCPRequest where
  Tool : String
  Parameters : Params
  deriving DecidableEq

/-- The struct `MCPResponse`. -/
structure MCPResponse where
  Result : String
  deriving DecidableEq

/-- The struct `ToolCapability`. -/
inductive ToolCapability where
  | mk (Name : String) (Description : String) (Parameters : GoMap Param)
      (SubTools : List ToolCapability) (Category : String) (Tags : List String)

namespace ToolCapability

/-- The field `Name`. -/
def Name : ToolCapability → String
  | mk n _ _ _ _ _ => n

/-- The field `Description`. -/
def Description : ToolCapability → String
  | mk _ d _ _ _ _ => d

/-- The field `Parameters`. -/
def Parameters : ToolCapability → GoMap Param
  | mk _ _ p _ _ _ => p

/-- The field `SubTools`. -/
def SubTools : ToolCapability → List ToolCapability
  | mk _ _ _ s _ _ => s

end ToolCapability

/-- What the handlers of `main.go` need besides the tools' world: the JSON codec. -/
structure ServerEnv where
  tools : Env
  unmarshalRequest : String → Except String MCPRequest
  marshalResponse : MCPResponse → Except String String
  marshalCapabilities : List ToolCapability → Except String String

/-- An incoming HTTP request: its method and the outcome of `io.ReadAll(r.Body)`. -/
structure Request where
  Method : String
  Body : Except String String

/-- What a handler wrote to its `http.ResponseWriter`. -/
inductive Response where
  | error (msg : String) (code : Nat)
  | json (jsonData : String)
  | aborted (panicMsg : String)
  deriving DecidableEq

/-- What `handleInvokeRequest` did on the registry and on tools, in order:
the read `toolRegistry[key]`, the read `tool.SubTools()[part]`, the call
`tool.Execute(params)`, and the effects of that call. -/
inductive Event where
  | registryLookup (key : String)
  | subTools (tool : Tool) (part : String)
  | execute (tool : Tool) (params : Params)
  | effect (e : Effect)

/-! ## main.go: registry and discovery -/

/-- The function `RegisterTool`, on the value of the global `toolRegistry`. -/
def RegisterTool (toolRegistry : GoMap Tool) (t : Tool) : GoMap Tool :=
  toolRegistry.set t.Name t

/-- The value of `toolRegistry` once `main` has registered its tools. -/
def main.toolRegistry : GoMap Tool :=
  RegisterTool (RegisterTool [] NewWebTools) NewFinanceTools

/-- The function `buildToolCapability`. -/
def buildToolCapability (ro : RangeOrder) (tool : Tool) : ToolCapability :=
  let toolParams := tool.Parameters
  let params : GoMap Param :=
    (ro.range 0 toolParams).foldl (fun params i => params.set (toolParams.get i).1 (toolParams.get i).2) []
  let subTools := tool.SubTools
  let capSubTools :=
    if subTools.length > 0 then
      (ro.range 1 subTools).map
        (fun i => buildToolCapability (ro.visit 1 i.val) (subTools.get i).2)
    else []
  ToolCapability.mk tool.Name tool.Description params capSubTools "" []
termination_by sizeOf tool
decreasing_by
  cases tool with
  | mk n d p e s =>
    have h1 : sizeOf (s.get i) < sizeOf s := List.sizeOf_get s i
    have h2 : sizeOf (s.get i).2 < sizeOf (s.get i) := by
      rcases s.get i with ⟨k, v⟩
      simp
    simp only [Tool.mk.sizeOf_spec]
    exact Nat.lt_trans h2 (by omega)

/-- The loop of `handleToolsRequest` that fills `capabilities.Tools`. -/
def handleToolsRequest.capabilities (ro : RangeOrder) (toolRegistry : GoMap Tool) :
    List ToolCapability :=
  (ro.range 0 toolRegistry).map
    (fun i => buildToolCapability (ro.visit 0 i.val) (toolRegistry.get i).2)

/-- The handler `handleToolsRequest`. -/
def handleToolsRequest (senv : ServerEnv) (ro : RangeOrder) (toolRegistry : GoMap Tool)
    (r : Request) : Response :=
  if r.Method ≠ "GET" then Response.error "Method not allowed" 405
  else
    match senv.marshalCapabilities (handleToolsRequest.capabilities ro toolRegistry) with
    | .error _ => Response.error "Failed to encode capabilities" 500
    | .ok jsonData => Response.json jsonData

/-! ## main.go: invocation -/

/-- The loop `for _, part := range toolParts[1:]` of `handleInvokeRequest`: the
tool the walk ends on (`none` when a part is missing) and the reads made. -/
def handleInvokeRequest.walk : Tool → List String → Option Tool × List Event
  | tool, [] => (some tool, [])
  | tool, part :: rest =>
    match tool.SubTools.get? part with
    | none => (none, [Event.subTools tool part])
    | some sub =>
      let (found, events) := handleInvokeRequest.walk sub rest
      (found, Event.subTools tool part :: events)

/-- The path walk of `handleInvokeRequest` (from the call of `splitToolPath` to
the end of the loop): the tool found, or the response written on failure, and
the reads made. -/
def handleInvokeRequest.resolve (toolRegistry : GoMap Tool) (path : String) :
    Except Response Tool × List Event :=
  match splitToolPath path with
  | [] => (.error (Response.aborted (indexPanic 0 0)), [])
  | first :: rest =>
    match toolRegistry.get? first with
    | none =>
      (.error (Response.error ("Tool '" ++ path ++ "' not found") 404),
        [Event.registryLookup first])
    | some tool =>
      match handleInvokeRequest.walk tool rest with
      | (none, events) =>
        (.error (Response.error ("Sub-tool '" ++ path ++ "' not found") 404),
          Event.registryLookup first :: events)
      | (some tool, events) => (.ok tool, Event.registryLookup first :: events)

/-- The end of `handleInvokeRequest`, from the call `tool.Execute(request.Parameters)` on. -/
def handleInvokeRequest.execute (senv : ServerEnv) (tool : Tool) (params : Params) :
    Response × List Event :=
  let r := tool.Execute senv.tools params
  let events := Event.execute tool params :: r.trace.map Event.effect
  match r.ret with
  | Returned.panic msg => (Response.aborted msg, events)
  | Returned.value _ (some err) =>
    (Response.error ("Tool execution failed: " ++ err) 500, events)
  | Returned.value result none =>
    match senv.marshalResponse ⟨result⟩ with
    | .error _ => (Response.error "Failed to encode response" 500, events)
    | .ok jsonData => (Response.json jsonData, events)

/-- The handler `handleInvokeRequest` from the decoded request on: the response
and what was done on the way. -/
def handleInvokeRequest.invoke (senv : ServerEnv) (toolRegistry : GoMap Tool)
    (request : MCPRequest) : Response × List Event :=
  match handleInvokeRequest.resolve toolRegistry request.Tool with
  | (.error response, events) => (response, events)
  | (.ok tool, events) =>
    let (response, done) := handleInvokeRequest.execute senv tool request.Parameters
    (response, events ++ done)

/-- The handler `handleInvokeRequest`. -/
def handleInvokeRequest (senv : ServerEnv) (toolRegistry : GoMap Tool) (r : Request) :
    Response × List Event :=
  if r.Method ≠ "POST" then (Response.error "Method not allowed" 405, [])
  else
    match r.Body with
    | .error _ => (Response.error "Failed to read request body" 400, [])
    | .ok body =>
      match senv.unmarshalRequest body with
      | .error _ => (Response.error "Invalid MCP request format" 400, [])
      | .ok request => handleInvokeRequest.invoke senv toolRegistry request

/-! ## Example worlds -/

/-- A world without network: every request fails, the codecs are trivial. -/
def Env.offline : Env where
  unicode := ⟨id, fun _ => false, fun _ => false, fun _ => false⟩
  getenv := fun _ => ""
  queryEscape := id
  valuesEncode := fun _ => ""
  newRequest := fun _ => none
  clientDo := fun _ => .error "network unreachable"
  htmlUnescape := id
  unmarshalNews := fun _ => .error "unexpected end of JSON input"
  unmarshalWeb := fun _ => .error "unexpected end of JSON input"
  unmarshalChart := fun _ => .error "unexpected end of JSON input"
  formatDate := fun _ => "1970-01-01"
  marshalStock := fun _ => .ok "\x7b\x7d"

/-- A server in the world `Env.offline`. -/
def ServerEnv.offline : ServerEnv where
  tools := Env.offline
  unmarshalRequest := fun _ => .error "unexpected end of JSON input"
  marshalResponse := fun r => .ok r.Result
  marshalCapabilities := fun _ => .ok "\x7b\x7d"

/-- A world in which the network answers every request with status 200 and the
chart decoded from the body has one timestamp and a quote object without
series, as decoded from `"timestamp":[1700000000]` and `"quote":[\x7b\x7d]`. -/
def Env.quoteWithoutSeries : Env :=
  { Env.offline with
    clientDo := fun _ => .ok ⟨200, .ok "chart"⟩
    unmarshalChart := fun _ => .ok ⟨[⟨[1700000000], [⟨[], [], [], [], []⟩]⟩], none⟩ }

/-! ## Map objects

A Go map value is a reference to a map object: two variables may hold the same
object, and a write through one is seen through the other. The copy loop of
`buildToolCapability` is modelled a second time on a heap of map objects, to
state which object a write reaches. -/

/-- The call `delete(m, k)` on a map. -/
def GoMap.delete {V : Type} (m : GoMap V) (k : String) : GoMap V :=
  m.filter (fun e => e.1 ≠ k)

/-- The map objects of a running program; a map value is an index into the list. -/
abbrev MapHeap := List (GoMap Param)

namespace MapHeap

/-- The map object behind the reference `r`. -/
def read (heap : MapHeap) (r : Nat) : GoMap Param :=
  heap.getD r []

/-- The call `make(map[string]Param, n)`: the heap with a new empty map object, and the reference to it. -/
def make (heap : MapHeap) : MapHeap × Nat :=
  (heap ++ [[]], heap.length)

/-- A change `f` of the map object behind the reference `r`. -/
def update : MapHeap → Nat → (GoMap Param → GoMap Param) → MapHeap
  | [], _, _ => []
  | m :: rest, 0, f => f m :: rest
  | m :: rest, r + 1, f => m :: update rest r f

/-- The assignment `m[k] = v` through the reference `r`. -/
def assign (heap : MapHeap) (r : Nat) (k : String) (v : Param) : MapHeap :=
  heap.update r (fun m => GoMap.set m k v)

/-- The call `delete(m, k)` through the reference `r`. -/
def delete (heap : MapHeap) (r : Nat) (k : String) : MapHeap :=
  heap.update r (fun m => GoMap.delete m k)

end MapHeap

/-- The copy of the parameter map in `buildToolCapability` (from `toolParams :=
tool.Parameters()` to the end of the loop) on map objects: `toolParams` refers
to the map the tool returned; the result is the heap after the loop and the
reference `params` stored in the descriptor. -/
def buildToolCapability.copyParams (ro : RangeOrder) (heap : MapHeap) (toolParams : Nat) :
    MapHeap × Nat :=
  let source := heap.read toolParams
  let (heap, params) := heap.make
  ((ro.range 0 source).foldl
    (fun heap i => heap.assign params (source.get i).1 (source.get i).2) heap, params)

/-! ## Tools of a registry -/

/-- The tools that the registry holds: the tools registered under a name, and
the tools stored under a name in `SubTools()` of such a tool. -/
inductive Registered (toolRegistry : GoMap Tool) : Tool → Prop where
  | top (name : String) (tool : Tool) (h : toolRegistry.get? name = some tool) :
    Registered toolRegistry tool
  | sub (tool : Tool) (part : String) (child : Tool) (ht : Registered toolRegistry tool)
    (h : tool.SubTools.get? part = some child) : Registered toolRegistry child

/-- The Go function `strings.Join(elems, sep)` for a one-character separator, on characters. -/
def joinChars (sep : Char) : List (List Char) → List Char
  | [] => []
  | [seg] => seg
  | seg :: rest => seg ++ sep :: joinChars sep rest

/-- The Go function `strings.Join(elems, ".")`. -/
def joinToolPath (parts : List String) : String :=
  String.mk (joinChars '.' (parts.map String.toList))

/-! ## Lemmas: maps and splitting -/

theorem splitChars_ne_nil (sep : Char) (cs : List Char) : splitChars sep cs ≠ [] := by
  cases cs with
  | nil => simp [splitChars]
  | cons c cs =>
    unfold splitChars
    split
    · simp
    · split <;> simp

theorem splitChars_of_not_mem {sep : Char} {cs : List Char} (h : sep ∉ cs) :
    splitChars sep cs = [cs] := by
  induction cs with
  | nil => rfl
  | cons c cs ih =>
    have hc : c ≠ sep := fun e => h (by simp [e])
    have hcs : sep ∉ cs := fun m => h (List.mem_cons_of_mem _ m)
    simp [splitChars, hc, ih hcs]

theorem splitChars_append_sep {sep : Char} {a : List Char} (b : List Char) (h : sep ∉ a) :
    splitChars sep (a ++ sep :: b) = a :: splitChars sep b := by
  induction a with
  | nil => simp [splitChars]
  | cons c a ih =>
    have hc : c ≠ sep := fun e => h (by simp [e])
    have ha : sep ∉ a := fun m => h (List.mem_cons_of_mem _ m)
    simp [splitChars, hc, ih ha]

theorem splitToolPath_ne_nil (path : String) : splitToolPath path ≠ [] := by
  simp [splitToolPath, splitChars_ne_nil]

theorem splitToolPath_of_no_dot {name : String} (h : '.' ∉ name.toList) :
    splitToolPath name = [name] := by
  have h1 : '.' ∉ name.data := h
  simp [splitToolPath, splitChars_of_not_mem h1]

theorem splitToolPath_dot {first : String} (rest : String) (h : '.' ∉ first.toList) :
    splitToolPath (first ++ "." ++ rest) = first :: splitToolPath rest := by
  have h1 : '.' ∉ first.data := h
  have e : (first ++ "." ++ rest).data = first.data ++ '.' :: rest.data := by
    simp
  simp only [splitToolPath, String.toList, e, splitChars_append_sep _ h1, List.map_cons]

/-! ## Lemmas: the path walk -/

theorem walk_nil (tool : Tool) : handleInvokeRequest.walk tool [] = (some tool, []) := rfl

theorem walk_cons_none {tool : Tool} {part : String} (rest : List String)
    (h : tool.SubTools.get? part = none) :
    handleInvokeRequest.walk tool (part :: rest) = (none, [Event.subTools tool part]) := by
  simp [handleInvokeRequest.walk, h]

theorem walk_cons_some {tool sub : Tool} {part : String} (rest : List String)
    (h : tool.SubTools.get? part = some sub) :
    handleInvokeRequest.walk tool (part :: rest)
      = ((handleInvokeRequest.walk sub rest).1,
          Event.subTools tool part :: (handleInvokeRequest.walk sub rest).2) := by
  simp [handleInvokeRequest.walk, h]

/-- A walk that finds every part of `pre` and then misses `missing` stops there. -/
theorem walk_append_missing {tool found : Tool} {pre : List String} {events : List Event}
    {missing : String} (post : List String)
    (hpre : handleInvokeRequest.walk tool pre = (some found, events))
    (hmiss : found.SubTools.get? missing = none) :
    handleInvokeRequest.walk tool (pre ++ missing :: post)
      = (none, events ++ [Event.subTools found missing]) := by
  induction pre generalizing tool events with
  | nil =>
    simp only [walk_nil, Prod.mk.injEq, Option.some.injEq] at hpre
    obtain ⟨rfl, rfl⟩ := hpre
    simp [walk_cons_none post hmiss]
  | cons part pre ih =>
    cases hsub : tool.SubTools.get? part with
    | none => simp [walk_cons_none pre hsub] at hpre
    | some sub =>
      rw [walk_cons_some pre hsub] at hpre
      simp only [Prod.mk.injEq] at hpre
      obtain ⟨h1, h2⟩ := hpre
      have hw : handleInvokeRequest.walk sub pre
          = (some found, (handleInvokeRequest.walk sub pre).2) := by
        rw [← h1]
      rw [List.cons_append, walk_cons_some _ hsub, ih hw, ← h2]
      simp

/-- The walk only reads sub-tool maps, one read per part it gets to. -/
theorem walk_events (tool : Tool) (parts : List String) :
    (handleInvokeRequest.walk tool parts).2.length ≤ parts.length ∧
    (∀ found, (handleInvokeRequest.walk tool parts).1 = some found →
      (handleInvokeRequest.walk tool parts).2.length = parts.length) ∧
    ∀ e ∈ (handleInvokeRequest.walk tool parts).2, ∃ t part, e = Event.subTools t part := by
  induction parts generalizing tool with
  | nil => simp [walk_nil]
  | cons part rest ih =>
    cases hsub : tool.SubTools.get? part with
    | none => simp [walk_cons_none rest hsub]
    | some sub =>
      obtain ⟨h1, h2, h3⟩ := ih sub
      rw [walk_cons_some rest hsub]
      refine ⟨by simpa using h1, fun found hf => by simpa using h2 found hf, ?_⟩
      intro e he
      rcases List.mem_cons.mp he with rfl | he
      · exact ⟨tool, part, rfl⟩
      · exact h3 e he

/-- A `POST` request whose body decodes to `request` is handled by the walk and
the execution of `handleInvokeRequest.invoke`. -/
theorem handleInvokeRequest_of_decoded (senv : ServerEnv) (toolRegistry : GoMap Tool)
    (body : String) (request : MCPRequest) (h : senv.unmarshalRequest body = .ok request) :
    handleInvokeRequest senv toolRegistry ⟨"POST", .ok body⟩
      = handleInvokeRequest.invoke senv toolRegistry request := by
  simp [handleInvokeRequest, h]

/-! ## Theorems: path resolution -/

/-- C1: for a registered top-level tool `t` under the name `T` and a key `C` of
`t.SubTools()`, neither name containing a dot, the path walk on `T.C` ends on
exactly the tool stored under `C`, and the handler calls that tool's `Execute`
with the request's parameters. -/
theorem resolve_child_path (senv : ServerEnv) (toolRegistry : GoMap Tool) (T C : String)
    (t c : Tool) (params : Params)
    (hT : '.' ∉ T.toList) (hC : '.' ∉ C.toList)
    (hreg : toolRegistry.get? T = some t) (hsub : t.SubTools.get? C = some c) :
    handleInvokeRequest.resolve toolRegistry (T ++ "." ++ C)
      = (.ok c, [Event.registryLookup T, Event.subTools t C]) ∧
    handleInvokeRequest.invoke senv toolRegistry ⟨T ++ "." ++ C, params⟩
      = ((handleInvokeRequest.execute senv c params).1,
          [Event.registryLookup T, Event.subTools t C, Event.execute c params]
            ++ (c.Execute senv.tools params).trace.map Event.effect) := by
  have hres : handleInvokeRequest.resolve toolRegistry (T ++ "." ++ C)
      = (.ok c, [Event.registryLookup T, Event.subTools t C]) := by
    simp [handleInvokeRequest.resolve, splitToolPath_dot C hT, splitToolPath_of_no_dot hC, hreg,
      walk_cons_some [] hsub, walk_nil]
  refine ⟨hres, ?_⟩
  have hev : (handleInvokeRequest.execute senv c params).2
      = Event.execute c params :: (c.Execute senv.tools params).trace.map Event.effect := by
    unfold handleInvokeRequest.execute
    simp only
    split
    · rfl
    · rfl
    · split <;> rfl
  simp [handleInvokeRequest.invoke, hres, hev]

/-- C1 at `WebTools.BraveSearch` in the registry built by `main`. -/
theorem resolve_child_path_witness :
    ('.' ∉ "WebTools".toList ∧ '.' ∉ "BraveSearch".toList ∧
      main.toolRegistry.get? "WebTools" = some NewWebTools ∧
      NewWebTools.SubTools.get? "BraveSearch" = some braveWebSearchTool) ∧
    (handleInvokeRequest.resolve main.toolRegistry ("WebTools" ++ "." ++ "BraveSearch")
      = (.ok braveWebSearchTool,
          [Event.registryLookup "WebTools", Event.subTools NewWebTools "BraveSearch"]) ∧
    handleInvokeRequest.invoke ServerEnv.offline main.toolRegistry
        ⟨"WebTools" ++ "." ++ "BraveSearch", []⟩
      = ((handleInvokeRequest.execute ServerEnv.offline braveWebSearchTool []).1,
          [Event.registryLookup "WebTools", Event.subTools NewWebTools "BraveSearch",
            Event.execute braveWebSearchTool []]
            ++ (braveWebSearchTool.Execute ServerEnv.offline.tools []).trace.map Event.effect)) :=
  ⟨⟨by decide, by decide, rfl, rfl⟩,
    resolve_child_path ServerEnv.offline main.toolRegistry "WebTools" "BraveSearch" NewWebTools
      braveWebSearchTool [] (by decide) (by decide) rfl rfl⟩

/-- C2: when the first segment of the path is not a key of the registry, the
invocation fails with HTTP 404 and the tool-not-found message, and the only
thing done is the one read of the registry: no `SubTools()` map is read and no
`Execute` is called, whatever the remaining segments are. -/
theorem invoke_unknown_first_segment (senv : ServerEnv) (toolRegistry : GoMap Tool)
    (request : MCPRequest) (first : String) (rest : List String)
    (hsplit : splitToolPath request.Tool = first :: rest)
    (hreg : toolRegistry.get? first = none) :
    handleInvokeRequest.invoke senv toolRegistry request
      = (Response.error ("Tool '" ++ request.Tool ++ "' not found") 404,
          [Event.registryLookup first]) := by
  simp [handleInvokeRequest.invoke, handleInvokeRequest.resolve, hsplit, hreg]

/-- C2 at the path `Ghost.WebTools.BraveSearch` in the registry built by `main`. -/
theorem invoke_unknown_first_segment_witness :
    (splitToolPath "Ghost.WebTools.BraveSearch" = "Ghost" :: ["WebTools", "BraveSearch"] ∧
      main.toolRegistry.get? "Ghost" = none) ∧
    handleInvokeRequest.invoke ServerEnv.offline main.toolRegistry
        ⟨"Ghost.WebTools.BraveSearch", [("query", Value.str "x")]⟩
      = (Response.error ("Tool '" ++ "Ghost.WebTools.BraveSearch" ++ "' not found") 404,
          [Event.registryLookup "Ghost"]) :=
  ⟨⟨by decide, rfl⟩,
    invoke_unknown_first_segment ServerEnv.offline main.toolRegistry
      ⟨"Ghost.WebTools.BraveSearch", [("query", Value.str "x")]⟩ "Ghost"
      ["WebTools", "BraveSearch"] (by decide) rfl⟩

/-- C3, as stated, fails: for the path `GhostTools.Anything` the tool-not-found
message names the whole path, not the first segment `GhostTools`. -/
theorem ghost_tools_message_not_first_segment :
    (handleInvokeRequest.invoke ServerEnv.offline main.toolRegistry
        ⟨"GhostTools.Anything", []⟩).1
      = Response.error "Tool 'GhostTools.Anything' not found" 404 ∧
    (handleInvokeRequest.invoke ServerEnv.offline main.toolRegistry
        ⟨"GhostTools.Anything", []⟩).1
      ≠ Response.error "Tool 'GhostTools' not found" 404 := by
  decide

/-- C3, amended: when the first segment of the path is not in the registry, the
tool-not-found failure names the full original path string. -/
theorem tool_not_found_names_full_path (senv : ServerEnv) (toolRegistry : GoMap Tool)
    (path : String) (params : Params) (first : String) (rest : List String)
    (hsplit : splitToolPath path = first :: rest)
    (hreg : toolRegistry.get? first = none) :
    (handleInvokeRequest.invoke senv toolRegistry ⟨path, params⟩).1
      = Response.error ("Tool '" ++ path ++ "' not found") 404 := by
  simp [handleInvokeRequest.invoke, handleInvokeRequest.resolve, hsplit, hreg]

/-- C3, amended, at the path `GhostTools.Anything` in the registry built by `main`. -/
theorem tool_not_found_names_full_path_witness :
    (splitToolPath "GhostTools.Anything" = "GhostTools" :: ["Anything"] ∧
      main.toolRegistry.get? "GhostTools" = none) ∧
    (handleInvokeRequest.invoke ServerEnv.offline main.toolRegistry
        ⟨"GhostTools.Anything", []⟩).1
      = Response.error ("Tool '" ++ "GhostTools.Anything" ++ "' not found") 404 :=
  ⟨⟨by decide, rfl⟩,
    tool_not_found_names_full_path ServerEnv.offline main.toolRegistry "GhostTools.Anything" []
      "GhostTools" ["Anything"] (by decide) rfl⟩

/-- C4: when the first segment is registered, the segments `pre` after it are
found one after the other and the next segment `missing` is not a key of
`SubTools()` of the tool reached, the invocation fails with HTTP 404 and the
sub-tool-not-found message carrying the full path string; the read of `missing`
is the last thing done: the segments after it are not looked up, and every
event besides the registry read is a read of a sub-tool map, so no `Execute` is
called. -/
theorem invoke_missing_sub_tool (senv : ServerEnv) (toolRegistry : GoMap Tool)
    (request : MCPRequest) (first : String) (pre : List String) (missing : String)
    (post : List String) (tool found : Tool) (events : List Event)
    (hsplit : splitToolPath request.Tool = first :: (pre ++ missing :: post))
    (hreg : toolRegistry.get? first = some tool)
    (hpre : handleInvokeRequest.walk tool pre = (some found, events))
    (hmiss : found.SubTools.get? missing = none) :
    handleInvokeRequest.invoke senv toolRegistry request
      = (Response.error ("Sub-tool '" ++ request.Tool ++ "' not found") 404,
          Event.registryLookup first :: (events ++ [Event.subTools found missing])) ∧
    events.length = pre.length ∧
    (∀ e ∈ events, ∃ t part, e = Event.subTools t part) ∧
    ∀ e ∈ Event.registryLookup first :: (events ++ [Event.subTools found missing]),
      ∀ t params, e ≠ Event.execute t params := by
  have hall := walk_events tool pre
  rw [hpre] at hall
  obtain ⟨_, hlen, hsub⟩ := hall
  refine ⟨?_, hlen found rfl, hsub, ?_⟩
  · simp [handleInvokeRequest.invoke, handleInvokeRequest.resolve, hsplit, hreg,
      walk_append_missing post hpre hmiss]
  · intro e he t params heq
    subst heq
    rcases List.mem_cons.mp he with h | h
    · cases h
    · rcases List.mem_append.mp h with h | h
      · obtain ⟨t', part, h'⟩ := hsub _ h
        cases h'
      · simp at h

/-- C4 at the path `WebTools.BraveSearch.X.Y` in the registry built by `main`:
the leaf `BraveSearch` is found and has no child `X`. -/
theorem invoke_missing_sub_tool_witness :
    (splitToolPath "WebTools.BraveSearch.X.Y" = "WebTools" :: (["BraveSearch"] ++ "X" :: ["Y"]) ∧
      main.toolRegistry.get? "WebTools" = some NewWebTools ∧
      handleInvokeRequest.walk NewWebTools ["BraveSearch"]
        = (some braveWebSearchTool, [Event.subTools NewWebTools "BraveSearch"]) ∧
      braveWebSearchTool.SubTools.get? "X" = none) ∧
    (handleInvokeRequest.invoke ServerEnv.offline main.toolRegistry
        ⟨"WebTools.BraveSearch.X.Y", []⟩
      = (Response.error ("Sub-tool '" ++ "WebTools.BraveSearch.X.Y" ++ "' not found") 404,
          Event.registryLookup "WebTools"
            :: ([Event.subTools NewWebTools "BraveSearch"]
              ++ [Event.subTools braveWebSearchTool "X"])) ∧
    [Event.subTools NewWebTools "BraveSearch"].length = ["BraveSearch"].length ∧
    (∀ e ∈ [Event.subTools NewWebTools "BraveSearch"], ∃ t part, e = Event.subTools t part) ∧
    ∀ e ∈ Event.registryLookup "WebTools"
        :: ([Event.subTools NewWebTools "BraveSearch"]
          ++ [Event.subTools braveWebSearchTool "X"]),
      ∀ t params, e ≠ Event.execute t params) :=
  ⟨⟨by decide, rfl, rfl, rfl⟩,
    invoke_missing_sub_tool ServerEnv.offline main.toolRegistry
      ⟨"WebTools.BraveSearch.X.Y", []⟩ "WebTools" ["BraveSearch"] "X" ["Y"]
      NewWebTools braveWebSearchTool [Event.subTools NewWebTools "BraveSearch"]
      (by decide) rfl rfl rfl⟩

/-- C5, as stated, fails: the tool string `""` is looked up in the registry and
fails with the tool-not-found failure, not with a failure of another kind. -/
theorem empty_path_is_tool_not_found :
    handleInvokeRequest.invoke ServerEnv.offline main.toolRegistry ⟨"", []⟩
      = (Response.error "Tool '' not found" 404, [Event.registryLookup ""]) := by
  rfl

/-- C5, amended: the tool string `""` is split into the single empty segment,
which is looked up in the registry like any other name: when no tool is
registered under `""` the invocation fails with the tool-not-found failure, and
otherwise the tool registered under `""` is executed. -/
theorem invoke_empty_path (senv : ServerEnv) (toolRegistry : GoMap Tool) (params : Params) :
    handleInvokeRequest.invoke senv toolRegistry ⟨"", params⟩
      = match toolRegistry.get? "" with
        | none => (Response.error "Tool '' not found" 404, [Event.registryLookup ""])
        | some tool =>
          ((handleInvokeRequest.execute senv tool params).1,
            Event.registryLookup "" :: (handleInvokeRequest.execute senv tool params).2) := by
  have hsplit : splitToolPath "" = [""] := by decide
  cases hreg : toolRegistry.get? "" with
  | none => simp [handleInvokeRequest.invoke, handleInvokeRequest.resolve, hsplit, hreg]
  | some tool =>
    simp [handleInvokeRequest.invoke, handleInvokeRequest.resolve, hsplit, hreg, walk_nil]

/-! ## Lemmas: composite dispatch -/

theorem assertString_of_str {params : Params} {key s : String}
    (h : params.get? key = some (Value.str s)) : assertString params key = (s, true) := by
  simp [assertString, h]

theorem assertString_of_not_str {params : Params} {key : String}
    (h : ∀ s, params.get? key ≠ some (Value.str s)) : assertString params key = ("", false) := by
  unfold assertString
  split
  · next s hs => exact absurd hs (h s)
  · rfl

theorem stringsTitle_BraveSearch (u : UnicodeTables) :
    stringsTitle u "BraveSearch" = "BraveSearch" := by
  simp [stringsTitle, titleChars, isSeparator, unicodeToTitle]

theorem stringsTitle_braveSearch (u : UnicodeTables) :
    stringsTitle u "braveSearch" = "BraveSearch" := by
  simp [stringsTitle, titleChars, isSeparator, unicodeToTitle]

theorem NewWebTools_subTools : NewWebTools.SubTools = [("BraveSearch", braveWebSearchTool)] := rfl

theorem NewFinanceTools_subTools :
    NewFinanceTools.SubTools = [("YahooStockPrice", yahooStockPriceTool)] := rfl

/-- The dispatch of `FinanceTools` on an operation that is a key of `subTools`. -/
theorem FinanceTools_execute_found (env : Env) (subTools : GoMap Tool) (p : Params)
    (op : String) (c : Tool) (hop : p.get? "operation" = some (Value.str op))
    (hc : subTools.get? op = some c) :
    (FinanceTools subTools).Execute env p
      = ⟨(c.Execute env p).ret, Effect.call op p :: (c.Execute env p).trace⟩ := by
  simp [FinanceTools, Tool.Execute, FinanceTools.Execute, assertString_of_str hop, hc]

/-- The dispatch of `WebTools` on an operation whose title-cased form is a key of `subTools`. -/
theorem WebTools_execute_found (env : Env) (subTools : GoMap Tool) (p : Params)
    (op : String) (c : Tool) (hop : p.get? "operation" = some (Value.str op))
    (hc : subTools.get? (stringsTitle env.unicode op) = some c) :
    (WebTools subTools).Execute env p
      = ⟨(c.Execute env p).ret,
          Effect.call (stringsTitle env.unicode op) p :: (c.Execute env p).trace⟩ := by
  simp [WebTools, Tool.Execute, WebTools.Execute, assertString_of_str hop, hc]

/-- The dispatch of the `WebTools` built by `NewWebTools` on the operation `BraveSearch`. -/
theorem composite_forwards_params_aux (env : Env) (p : Params)
    (hop : p.get? "operation" = some (Value.str "BraveSearch")) :
    (NewWebTools.Execute env p).ret = (braveWebSearchTool.Execute env p).ret := by
  have h := WebTools_execute_found env NewWebTools.SubTools p "BraveSearch" braveWebSearchTool
    hop (by rw [stringsTitle_BraveSearch]; rfl)
  have e : NewWebTools.Execute env p = (WebTools NewWebTools.SubTools).Execute env p := rfl
  rw [e, h]
  rfl

/-! ## Theorems: composite dispatch -/

/-- C6: for each of the composite tools `WebTools` and `FinanceTools` and every
parameter mapping `p` whose `operation` is a string naming a child `c`,
`Execute(p)` returns what `c.Execute(p)` returns, unchanged, and what it does is
the call of that child with the identical mapping `p` followed by what the child
does. -/
theorem composite_forwards_params (env : Env) (t : Tool) (p : Params) (op : String) (c : Tool)
    (ht : t = NewWebTools ∨ t = NewFinanceTools)
    (hop : p.get? "operation" = some (Value.str op))
    (hc : t.SubTools.get? op = some c) :
    t.Execute env p = ⟨(c.Execute env p).ret, Effect.call op p :: (c.Execute env p).trace⟩ := by
  rcases ht with rfl | rfl
  · have hkey : op = "BraveSearch" := by
      rw [NewWebTools_subTools] at hc
      simp only [GoMap.get?] at hc
      split at hc
      · next h => exact h.symm
      · cases hc
    subst hkey
    have h := WebTools_execute_found env NewWebTools.SubTools p "BraveSearch" c hop
      (by rw [stringsTitle_BraveSearch]; exact hc)
    rw [stringsTitle_BraveSearch] at h
    exact h
  · exact FinanceTools_execute_found env NewFinanceTools.SubTools p op c hop hc

/-- C6 at `WebTools` with `{operation: "BraveSearch", query: "acme corp"}`. -/
theorem composite_forwards_params_witness :
    ((NewWebTools = NewWebTools ∨ NewWebTools = NewFinanceTools) ∧
      GoMap.get? [("operation", Value.str "BraveSearch"), ("query", Value.str "acme corp")]
        "operation" = some (Value.str "BraveSearch") ∧
      NewWebTools.SubTools.get? "BraveSearch" = some braveWebSearchTool) ∧
    NewWebTools.Execute Env.offline
        [("operation", Value.str "BraveSearch"), ("query", Value.str "acme corp")]
      = ⟨(braveWebSearchTool.Execute Env.offline
            [("operation", Value.str "BraveSearch"), ("query", Value.str "acme corp")]).ret,
          Effect.call "BraveSearch"
              [("operation", Value.str "BraveSearch"), ("query", Value.str "acme corp")]
            :: (braveWebSearchTool.Execute Env.offline
              [("operation", Value.str "BraveSearch"), ("query", Value.str "acme corp")]).trace⟩ :=
  ⟨⟨Or.inl rfl, rfl, rfl⟩,
    composite_forwards_params Env.offline NewWebTools
      [("operation", Value.str "BraveSearch"), ("query", Value.str "acme corp")] "BraveSearch"
      braveWebSearchTool (Or.inl rfl) rfl rfl⟩

/-- C7: for a `WebTools` and a `FinanceTools` with any children, and every
parameter mapping in which `operation` is absent or bound to a value that is
not a string, `Execute` returns the empty result with the error `operation must
be a string` and does nothing else: no child is called. -/
theorem composite_rejects_non_string_operation (env : Env) (subTools : GoMap Tool) (p : Params)
    (hop : ∀ s, p.get? "operation" ≠ some (Value.str s)) :
    (WebTools subTools).Execute env p
      = ⟨Returned.value "" (some "operation must be a string"), []⟩ ∧
    (FinanceTools subTools).Execute env p
      = ⟨Returned.value "" (some "operation must be a string"), []⟩ := by
  constructor
  · simp [WebTools, Tool.Execute, WebTools.Execute, assertString_of_not_str hop, ExecResult.fail]
  · simp [FinanceTools, Tool.Execute, FinanceTools.Execute, assertString_of_not_str hop,
      ExecResult.fail]

/-- C7 at the children of `WebTools` with `operation` bound to a number. -/
theorem composite_rejects_non_string_operation_witness :
    (∀ s, GoMap.get? [("operation", Value.float64 ⟨0⟩), ("query", Value.str "x")] "operation"
      ≠ some (Value.str s)) ∧
    ((WebTools NewWebTools.SubTools).Execute Env.offline
        [("operation", Value.float64 ⟨0⟩), ("query", Value.str "x")]
      = ⟨Returned.value "" (some "operation must be a string"), []⟩ ∧
    (FinanceTools NewWebTools.SubTools).Execute Env.offline
        [("operation", Value.float64 ⟨0⟩), ("query", Value.str "x")]
      = ⟨Returned.value "" (some "operation must be a string"), []⟩) :=
  ⟨fun s h => by simp [GoMap.get?] at h,
    composite_rejects_non_string_operation Env.offline NewWebTools.SubTools
      [("operation", Value.float64 ⟨0⟩), ("query", Value.str "x")]
      (fun s h => by simp [GoMap.get?] at h)⟩

/-- C8, as stated, fails: `braveSearch` is not a key of the children of
`WebTools`, yet `WebTools` does not reject it: it calls the child `BraveSearch`,
which sends its request. -/
theorem webtools_accepts_lower_case_operation :
    (NewWebTools.SubTools.get? "braveSearch").isNone = true ∧
    NewWebTools.Execute Env.offline
        [("operation", Value.str "braveSearch"), ("query", Value.str "acme")]
      ≠ ExecResult.fail "operation 'braveSearch' not found in WebTools" [] ∧
    (NewWebTools.Execute Env.offline
        [("operation", Value.str "braveSearch"), ("query", Value.str "acme")]).trace.head?
      = some (Effect.call "BraveSearch"
          [("operation", Value.str "braveSearch"), ("query", Value.str "acme")]) ∧
    NewFinanceTools.Execute Env.offline
        [("operation", Value.str "yahooStockPrice"), ("ticker", Value.str "ACME")]
      = ExecResult.fail "operation 'yahooStockPrice' not found in FinanceTools" [] := by
  decide

/-- C8, amended: for every string value `v` of `operation`, `FinanceTools` fails
with its operation-not-found error exactly when `v` is not a key of its
children, by exact string equality; `WebTools` fails with its
operation-not-found error exactly when `strings.Title(v)` is not a key of its
children. -/
theorem operation_not_found_iff (env : Env) (subTools : GoMap Tool) (p : Params) (v : String)
    (hop : p.get? "operation" = some (Value.str v)) :
    ((FinanceTools subTools).Execute env p
        = ExecResult.fail ("operation '" ++ v ++ "' not found in FinanceTools") []
      ↔ subTools.get? v = none) ∧
    ((WebTools subTools).Execute env p
        = ExecResult.fail ("operation '" ++ v ++ "' not found in WebTools") []
      ↔ subTools.get? (stringsTitle env.unicode v) = none) := by
  constructor
  · cases hc : subTools.get? v with
    | none =>
      simp [FinanceTools, Tool.Execute, FinanceTools.Execute, assertString_of_str hop, hc]
    | some c =>
      rw [FinanceTools_execute_found env subTools p v c hop hc]
      simp [ExecResult.fail]
  · cases hc : subTools.get? (stringsTitle env.unicode v) with
    | none =>
      simp [WebTools, Tool.Execute, WebTools.Execute, assertString_of_str hop, hc]
    | some c =>
      rw [WebTools_execute_found env subTools p v c hop hc]
      simp [ExecResult.fail]

/-- C8, amended, at the children of `WebTools` and the operation `braveSearch`. -/
theorem operation_not_found_iff_witness :
    GoMap.get? [("operation", Value.str "braveSearch")] "operation"
      = some (Value.str "braveSearch") ∧
    (((FinanceTools NewWebTools.SubTools).Execute Env.offline
          [("operation", Value.str "braveSearch")]
        = ExecResult.fail ("operation '" ++ "braveSearch" ++ "' not found in FinanceTools") []
      ↔ NewWebTools.SubTools.get? "braveSearch" = none) ∧
    ((WebTools NewWebTools.SubTools).Execute Env.offline
          [("operation", Value.str "braveSearch")]
        = ExecResult.fail ("operation '" ++ "braveSearch" ++ "' not found in WebTools") []
      ↔ NewWebTools.SubTools.get? (stringsTitle Env.offline.unicode "braveSearch") = none)) :=
  ⟨rfl,
    operation_not_found_iff Env.offline NewWebTools.SubTools
      [("operation", Value.str "braveSearch")] "braveSearch" rfl⟩

/-! ## Lemmas: the two addressing styles -/

/-- The leaf `BraveSearch` reads the parameters it declares and no other. -/
theorem braveWebSearchTool.Execute_congr (env : Env) (p q : Params)
    (h : ∀ k ∈ braveWebSearchTool.Parameters.keys, p.get? k = q.get? k) :
    braveWebSearchTool.Execute env p = braveWebSearchTool.Execute env q := by
  have h1 := h "query" (by decide)
  have h2 := h "api_key" (by decide)
  have h3 := h "search_type" (by decide)
  have h4 := h "safesearch" (by decide)
  have h5 := h "count" (by decide)
  have h6 := h "search_lang" (by decide)
  have h7 := h "country" (by decide)
  have h8 := h "spellcheck" (by decide)
  simp only [braveWebSearchTool.Execute, assertString, assertInt, assertBool, h1, h2, h3, h4,
    h5, h6, h7, h8]

/-- The response written after `Execute` is a function of what `Execute` returned. -/
theorem execute_response_congr (senv : ServerEnv) (t t' : Tool) (p p' : Params)
    (h : (t.Execute senv.tools p).ret = (t'.Execute senv.tools p').ret) :
    (handleInvokeRequest.execute senv t p).1 = (handleInvokeRequest.execute senv t' p').1 := by
  unfold handleInvokeRequest.execute
  simp only [h]
  split
  · rfl
  · rfl
  · split <;> rfl

theorem resolve_WebTools :
    handleInvokeRequest.resolve main.toolRegistry "WebTools"
      = (.ok NewWebTools, [Event.registryLookup "WebTools"]) := rfl

theorem resolve_WebTools_BraveSearch :
    handleInvokeRequest.resolve main.toolRegistry "WebTools.BraveSearch"
      = (.ok braveWebSearchTool,
          [Event.registryLookup "WebTools", Event.subTools NewWebTools "BraveSearch"]) := rfl

/-- In the registry built by `main`, the path `WebTools` with an `operation` of
`BraveSearch` and the path `WebTools.BraveSearch` give the same response when
the two parameter mappings agree on the parameters that `BraveSearch` declares. -/
theorem addressing_styles_agree_of_congr (senv : ServerEnv) (p p' : Params)
    (hop : p.get? "operation" = some (Value.str "BraveSearch"))
    (h : ∀ k ∈ braveWebSearchTool.Parameters.keys, p.get? k = p'.get? k) :
    (handleInvokeRequest.invoke senv main.toolRegistry ⟨"WebTools", p⟩).1
      = (handleInvokeRequest.invoke senv main.toolRegistry ⟨"WebTools.BraveSearch", p'⟩).1 := by
  have hret : (NewWebTools.Execute senv.tools p).ret
      = (braveWebSearchTool.Execute senv.tools p').ret := by
    rw [composite_forwards_params_aux senv.tools p hop]
    exact congrArg ExecResult.ret (braveWebSearchTool.Execute_congr senv.tools p p' h)
  simp only [handleInvokeRequest.invoke, resolve_WebTools, resolve_WebTools_BraveSearch]
  exact execute_response_congr senv NewWebTools braveWebSearchTool p p' hret

/-! ## Theorems: the two addressing styles -/

/-- C9: in the registry built by `main`, for every query string `q` and the same
outside world, the path `WebTools` with the parameters `{operation:
"BraveSearch", query: q}` and the path `WebTools.BraveSearch` with the
parameters `{query: q}` give the same response, be it a result or a failure,
whichever way round the two entries of the first mapping are held. -/
theorem addressing_styles_agree (senv : ServerEnv) (q : String) :
    (handleInvokeRequest.invoke senv main.toolRegistry
        ⟨"WebTools", [("operation", Value.str "BraveSearch"), ("query", Value.str q)]⟩).1
      = (handleInvokeRequest.invoke senv main.toolRegistry
          ⟨"WebTools.BraveSearch", [("query", Value.str q)]⟩).1 ∧
    (handleInvokeRequest.invoke senv main.toolRegistry
        ⟨"WebTools", [("query", Value.str q), ("operation", Value.str "BraveSearch")]⟩).1
      = (handleInvokeRequest.invoke senv main.toolRegistry
          ⟨"WebTools.BraveSearch", [("query", Value.str q)]⟩).1 := by
  constructor
  · refine addressing_styles_agree_of_congr senv
      [("operation", Value.str "BraveSearch"), ("query", Value.str q)] [("query", Value.str q)]
      rfl ?_
    intro k hk
    simp only [braveWebSearchTool.Parameters, GoMap.keys, List.map_cons, List.map_nil,
      List.mem_cons, List.mem_singleton, List.not_mem_nil, or_false] at hk
    rcases hk with rfl | rfl | rfl | rfl | rfl | rfl | rfl | rfl <;> rfl
  · refine addressing_styles_agree_of_congr senv
      [("query", Value.str q), ("operation", Value.str "BraveSearch")] [("query", Value.str q)]
      rfl ?_
    intro k hk
    simp only [braveWebSearchTool.Parameters, GoMap.keys, List.map_cons, List.map_nil,
      List.mem_cons, List.mem_singleton, List.not_mem_nil, or_false] at hk
    rcases hk with rfl | rfl | rfl | rfl | rfl | rfl | rfl | rfl <;> rfl

/-! ## Lemmas: the capability tree -/

theorem RangeOrder.range_perm (ro : RangeOrder) (k : Nat) {V : Type} (m : GoMap V) :
    (ro.range k m).Perm (List.finRange m.length) :=
  (ro.child k).perm [] m.length

theorem RangeOrder.range_length (ro : RangeOrder) (k : Nat) {V : Type} (m : GoMap V) :
    (ro.range k m).length = m.length := by
  rw [(ro.range_perm k m).length_eq, List.length_finRange]

/-- One unfolding of `buildToolCapability`. -/
theorem buildToolCapability_eq (ro : RangeOrder) (tool : Tool) :
    buildToolCapability ro tool
      = ToolCapability.mk tool.Name tool.Description
          ((ro.range 0 tool.Parameters).foldl
            (fun params i => params.set (tool.Parameters.get i).1 (tool.Parameters.get i).2) [])
          (if tool.SubTools.length > 0 then
            (ro.range 1 tool.SubTools).map
              (fun i => buildToolCapability (ro.visit 1 i.val) (tool.SubTools.get i).2)
          else [])
          "" [] := by
  rw [buildToolCapability]

theorem buildToolCapability_subTools (ro : RangeOrder) (tool : Tool) :
    (buildToolCapability ro tool).SubTools
      = (ro.range 1 tool.SubTools).map
          (fun i => buildToolCapability (ro.visit 1 i.val) (tool.SubTools.get i).2) := by
  rw [buildToolCapability_eq]
  simp only [ToolCapability.SubTools]
  split
  · rfl
  · next h =>
    have h0 : tool.SubTools.length = 0 := by omega
    have hl : (ro.range 1 tool.SubTools).length = 0 :=
      (ro.range_length 1 tool.SubTools).trans h0
    rw [List.length_eq_zero.mp hl]
    rfl

/-! ## Theorems: the capability tree -/

/-- C10: for every tool and every iteration order of the runtime, the `SubTools`
list of `buildToolCapability(tool)` has exactly one descriptor per entry of
`tool.SubTools()` and nothing else: its length is the number of entries, it is
the list of `buildToolCapability(child)` over the entries, each entry taken
exactly once (the positions visited are a permutation of all positions), every
child descriptor being built by the same function and so having the same
property at every depth; and the list is empty exactly when the tool has no
children. -/
theorem capability_subTools (ro : RangeOrder) (tool : Tool) :
    (buildToolCapability ro tool).SubTools.length = tool.SubTools.length ∧
    (∃ order : List (Fin tool.SubTools.length),
      order.Perm (List.finRange tool.SubTools.length) ∧
      (buildToolCapability ro tool).SubTools
        = order.map (fun i => buildToolCapability (ro.visit 1 i.val) (tool.SubTools.get i).2)) ∧
    ((buildToolCapability ro tool).SubTools = [] ↔ tool.SubTools = []) := by
  have hlen : (buildToolCapability ro tool).SubTools.length = tool.SubTools.length := by
    rw [buildToolCapability_subTools, List.length_map, ro.range_length]
  refine ⟨hlen, ⟨ro.range 1 tool.SubTools, ro.range_perm 1 tool.SubTools,
    buildToolCapability_subTools ro tool⟩, ?_⟩
  rw [← List.length_eq_zero, ← List.length_eq_zero (l := tool.SubTools), hlen]

/-! ## Lemmas: reading and writing maps -/

theorem GoMap.get?_set_self {V : Type} (m : GoMap V) (k : String) (v : V) :
    (m.set k v).get? k = some v := by
  induction m with
  | nil => simp [GoMap.set, GoMap.get?]
  | cons e rest ih =>
    obtain ⟨k', v'⟩ := e
    by_cases h : k' = k
    · simp [GoMap.set, GoMap.get?, h]
    · simp [GoMap.set, GoMap.get?, h, ih]

theorem GoMap.get?_set_of_ne {V : Type} (m : GoMap V) {k name : String} (v : V)
    (hne : name ≠ k) : (m.set k v).get? name = m.get? name := by
  induction m with
  | nil =>
    have h : ¬ k = name := fun e => hne e.symm
    simp [GoMap.set, GoMap.get?, h]
  | cons e rest ih =>
    obtain ⟨k', v'⟩ := e
    by_cases h : k' = k
    · have h2 : ¬ k = name := fun e => hne e.symm
      have h3 : ¬ k' = name := fun e => hne (e.symm.trans h)
      simp [GoMap.set, GoMap.get?, h, h2]
    · by_cases h2 : k' = name
      · subst h2
        simp [GoMap.set, GoMap.get?, h]
      · simp [GoMap.set, GoMap.get?, h, h2, ih]

theorem GoMap.keys_set {V : Type} (m : GoMap V) (k : String) (v : V) :
    (m.set k v).keys = if k ∈ m.keys then m.keys else m.keys ++ [k] := by
  induction m with
  | nil => simp [GoMap.set, GoMap.keys]
  | cons e rest ih =>
    obtain ⟨k', v'⟩ := e
    simp only [GoMap.keys] at ih
    by_cases h : k' = k
    · simp [GoMap.set, GoMap.keys, h]
    · have h2 : ¬ k = k' := fun e => h e.symm
      by_cases hm : k ∈ List.map Prod.fst rest
      · simp [GoMap.set, GoMap.keys, h, h2, hm, ih]
      · simp [GoMap.set, GoMap.keys, h, h2, hm, ih]

theorem GoMap.get?_eq_none_iff {V : Type} (m : GoMap V) (k : String) :
    m.get? k = none ↔ k ∉ m.keys := by
  induction m with
  | nil => simp [GoMap.get?, GoMap.keys]
  | cons e rest ih =>
    obtain ⟨k', v'⟩ := e
    simp only [GoMap.keys] at ih
    by_cases h : k' = k
    · simp [GoMap.get?, GoMap.keys, h]
    · have h2 : ¬ k = k' := fun e => h e.symm
      simp [GoMap.get?, GoMap.keys, h, h2, ih]

/-! ## Theorems: the registry -/

/-- C13: `RegisterTool(t)` inserts or overwrites the registry entry for
`t.Name()`: afterwards the read of `t.Name()` yields `t`, whatever was
registered under that name before, the read of every other name yields what it
yielded before, and the keys are those of before, with `t.Name()` added when it
was not among them. -/
theorem register_tool_entry (toolRegistry : GoMap Tool) (t : Tool) :
    (RegisterTool toolRegistry t).get? t.Name = some t ∧
    (∀ name, name ≠ t.Name →
      (RegisterTool toolRegistry t).get? name = toolRegistry.get? name) ∧
    (RegisterTool toolRegistry t).keys
      = if t.Name ∈ toolRegistry.keys then toolRegistry.keys
        else toolRegistry.keys ++ [t.Name] :=
  ⟨GoMap.get?_set_self toolRegistry t.Name t,
    fun _ hne => GoMap.get?_set_of_ne toolRegistry t hne,
    GoMap.keys_set toolRegistry t.Name t⟩

/-! ## Lemmas: iteration orders and the copy of parameters -/

theorem RangeOrder.range_one (ro : RangeOrder) (k : Nat) {V : Type} (e : String × V) :
    ro.range k [e] = [(0 : Fin 1)] := by
  have h := ro.range_perm k [e]
  have h1 : List.finRange ([e] : GoMap V).length = [(0 : Fin 1)] := by rfl
  rw [h1] at h
  exact List.perm_singleton.mp h

theorem perm_fin_two : ∀ x y : Fin 2, [x, y].Perm [0, 1] → ([x, y] = [0, 1] ∨ [x, y] = [1, 0]) := by
  decide

theorem RangeOrder.range_two (ro : RangeOrder) (k : Nat) {V : Type} (a b : String × V) :
    ro.range k [a, b] = [(0 : Fin 2), 1] ∨ ro.range k [a, b] = [(1 : Fin 2), 0] := by
  have h := ro.range_perm k [a, b]
  have h1 : List.finRange ([a, b] : GoMap V).length = [(0 : Fin 2), 1] := by rfl
  rw [h1] at h
  have hlen : (ro.range k [a, b]).length = 2 := h.length_eq
  match hl : ro.range k [a, b], hlen with
  | [x, y], _ =>
    rw [hl] at h
    exact perm_fin_two x y h

theorem main_toolRegistry_eq :
    main.toolRegistry = [("WebTools", NewWebTools), ("FinanceTools", NewFinanceTools)] := rfl

theorem buildToolCapability_name (ro : RangeOrder) (tool : Tool) :
    (buildToolCapability ro tool).Name = tool.Name := by
  rw [buildToolCapability_eq]
  rfl

theorem buildToolCapability_subTools_nil (ro : RangeOrder) (tool : Tool)
    (h : tool.SubTools = []) : (buildToolCapability ro tool).SubTools = [] := by
  have hl : (buildToolCapability ro tool).SubTools.length = 0 := by
    rw [buildToolCapability_subTools, List.length_map, ro.range_length, h]
    rfl
  exact List.length_eq_zero.mp hl

theorem buildToolCapability_subTools_single (ro : RangeOrder) (tool : Tool) (k : String)
    (c : Tool) (h : tool.SubTools = [(k, c)]) :
    (buildToolCapability ro tool).SubTools = [buildToolCapability (ro.visit 1 0) c] := by
  cases tool with
  | mk n d p e s =>
    simp only [Tool.SubTools] at h
    subst h
    rw [buildToolCapability_subTools]
    simp only [Tool.SubTools]
    rw [RangeOrder.range_one]
    rfl

theorem capabilities_two (ro : RangeOrder) (a b : String × Tool) :
    handleToolsRequest.capabilities ro [a, b]
        = [buildToolCapability (ro.visit 0 0) a.2, buildToolCapability (ro.visit 0 1) b.2] ∨
    handleToolsRequest.capabilities ro [a, b]
        = [buildToolCapability (ro.visit 0 1) b.2, buildToolCapability (ro.visit 0 0) a.2] := by
  unfold handleToolsRequest.capabilities
  rcases ro.range_two 0 a b with h | h
  · left
    rw [h]
    rfl
  · right
    rw [h]
    rfl

theorem GoMap.get?_eq_some_iff_mem {V : Type} (m : GoMap V) (hnd : m.keys.Nodup) (k : String)
    (v : V) : m.get? k = some v ↔ (k, v) ∈ m := by
  induction m with
  | nil => simp [GoMap.get?]
  | cons e rest ih =>
    obtain ⟨k', v'⟩ := e
    simp only [GoMap.keys, List.map_cons, List.nodup_cons] at hnd
    have ih' := ih hnd.2
    by_cases h : k' = k
    · subst h
      have hnot : ∀ w, (k', w) ∉ rest := fun w hw =>
        hnd.1 (List.mem_map.mpr ⟨(k', w), hw, rfl⟩)
      simp [GoMap.get?, hnot]
      exact eq_comm
    · have h2 : ¬ k = k' := fun e => h e.symm
      simp [GoMap.get?, h, h2, ih']

theorem GoMap.get?_perm {V : Type} {m m' : GoMap V} (hp : m.Perm m') (hnd : m'.keys.Nodup)
    (k : String) : m.get? k = m'.get? k := by
  have hnd' : m.keys.Nodup := (hp.map Prod.fst).nodup_iff.mpr hnd
  apply Option.ext
  intro v
  simp only [Option.mem_def]
  rw [GoMap.get?_eq_some_iff_mem m hnd', GoMap.get?_eq_some_iff_mem m' hnd]
  exact hp.mem_iff

theorem GoMap.foldl_set_get? {V : Type} (es : List (String × V)) (acc : GoMap V) (k : String)
    (hnd : (es.map Prod.fst).Nodup) :
    (es.foldl (fun m e => GoMap.set m e.1 e.2) acc).get? k
      = match GoMap.get? es k with
        | some v => some v
        | none => acc.get? k := by
  induction es generalizing acc with
  | nil => simp [GoMap.get?]
  | cons e rest ih =>
    obtain ⟨k', v'⟩ := e
    simp only [List.map_cons, List.nodup_cons] at hnd
    rw [List.foldl_cons, ih _ hnd.2]
    by_cases h : k' = k
    · subst h
      have hn : GoMap.get? rest k' = none := (GoMap.get?_eq_none_iff rest k').mpr hnd.1
      simp [GoMap.get?, hn, GoMap.get?_set_self]
    · have h2 : k ≠ k' := fun e => h e.symm
      simp [GoMap.get?, h, GoMap.get?_set_of_ne _ _ h2]

/-- The copy loop of `buildToolCapability` yields a map with the entries of its source. -/
theorem copy_get? (m : GoMap Param) (hnd : m.keys.Nodup) (order : List (Fin m.length))
    (hp : order.Perm (List.finRange m.length)) (k : String) :
    (order.foldl (fun params i => GoMap.set params (m.get i).1 (m.get i).2) []).get? k
      = m.get? k := by
  have hmap : order.foldl (fun params i => GoMap.set params (m.get i).1 (m.get i).2) []
      = (order.map m.get).foldl (fun params e => GoMap.set params e.1 e.2) [] := by
    rw [List.foldl_map]
  have hes : (order.map m.get).Perm m := by
    have := hp.map m.get
    rwa [List.finRange_map_get] at this
  have hnd' : ((order.map m.get).map Prod.fst).Nodup := (hes.map Prod.fst).nodup_iff.mpr hnd
  rw [hmap, GoMap.foldl_set_get? _ _ _ hnd', GoMap.get?_perm hes hnd]
  cases m.get? k <;> rfl

theorem buildToolCapability_parameters (ro : RangeOrder) (tool : Tool) :
    (buildToolCapability ro tool).Parameters
      = (ro.range 0 tool.Parameters).foldl
          (fun params i => GoMap.set params (tool.Parameters.get i).1 (tool.Parameters.get i).2) [] := by
  rw [buildToolCapability_eq]
  rfl

theorem buildToolCapability_parameters_get? (ro : RangeOrder) (tool : Tool)
    (hnd : tool.Parameters.keys.Nodup) (k : String) :
    (buildToolCapability ro tool).Parameters.get? k = tool.Parameters.get? k := by
  rw [buildToolCapability_parameters]
  exact copy_get? tool.Parameters hnd _ (ro.range_perm 0 tool.Parameters) k

theorem MapHeap.read_update_of_ne (heap : MapHeap) {r r' : Nat} (hne : r' ≠ r)
    (f : GoMap Param → GoMap Param) : (heap.update r f).read r' = heap.read r' := by
  induction heap generalizing r r' with
  | nil => rfl
  | cons m rest ih =>
    cases r with
    | zero =>
      cases r' with
      | zero => exact absurd rfl hne
      | succ n => rfl
    | succ n =>
      cases r' with
      | zero => rfl
      | succ n' =>
        have h : n' ≠ n := fun e => hne (by rw [e])
        simpa [MapHeap.update, MapHeap.read] using ih h

theorem MapHeap.read_update_self (heap : MapHeap) {r : Nat} (hr : r < heap.length)
    (f : GoMap Param → GoMap Param) : (heap.update r f).read r = f (heap.read r) := by
  induction heap generalizing r with
  | nil => simp at hr
  | cons m rest ih =>
    cases r with
    | zero => rfl
    | succ n =>
      have h : n < rest.length := by simpa using hr
      simpa [MapHeap.update, MapHeap.read] using ih h

theorem MapHeap.length_update (heap : MapHeap) (r : Nat) (f : GoMap Param → GoMap Param) :
    (heap.update r f).length = heap.length := by
  induction heap generalizing r with
  | nil => rfl
  | cons m rest ih =>
    cases r with
    | zero => rfl
    | succ n => simp [MapHeap.update, ih]

/-- The writes of the copy loop, as a fold over the heap: they reach the object
`params` only, and leave in it the map built by the same writes. -/
theorem copy_loop_heap (heap : MapHeap) (params : Nat) (hp : params < heap.length)
    (es : List (String × Param)) :
    (es.foldl (fun heap e => MapHeap.assign heap params e.1 e.2) heap).read params
        = es.foldl (fun m e => GoMap.set m e.1 e.2) (heap.read params) ∧
    (∀ r, r ≠ params →
      (es.foldl (fun heap e => MapHeap.assign heap params e.1 e.2) heap).read r = heap.read r) ∧
    (es.foldl (fun heap e => MapHeap.assign heap params e.1 e.2) heap).length = heap.length := by
  induction es generalizing heap with
  | nil => exact ⟨rfl, fun _ _ => rfl, rfl⟩
  | cons e rest ih =>
    have hlen : (MapHeap.assign heap params e.1 e.2).length = heap.length :=
      MapHeap.length_update heap params _
    obtain ⟨h1, h2, h3⟩ := ih (MapHeap.assign heap params e.1 e.2) (by rw [hlen]; exact hp)
    refine ⟨?_, ?_, ?_⟩
    · rw [List.foldl_cons, h1, List.foldl_cons]
      unfold MapHeap.assign
      rw [MapHeap.read_update_self heap hp]
    · intro r hr
      rw [List.foldl_cons, h2 r hr]
      exact MapHeap.read_update_of_ne heap hr _
    · rw [List.foldl_cons, h3, hlen]

/-- What the copy of the parameter map leaves on the heap. -/
theorem copyParams_spec (ro : RangeOrder) (heap : MapHeap) (toolParams : Nat)
    (hvalid : toolParams < heap.length) :
    (buildToolCapability.copyParams ro heap toolParams).2 = heap.length ∧
    (buildToolCapability.copyParams ro heap toolParams).1.read heap.length
      = (ro.range 0 (heap.read toolParams)).foldl
          (fun params i => GoMap.set params ((heap.read toolParams).get i).1
            ((heap.read toolParams).get i).2) [] ∧
    (buildToolCapability.copyParams ro heap toolParams).1.read toolParams
      = heap.read toolParams ∧
    heap.length < (buildToolCapability.copyParams ro heap toolParams).1.length := by
  have hfold : (buildToolCapability.copyParams ro heap toolParams).1
      = ((ro.range 0 (heap.read toolParams)).map (heap.read toolParams).get).foldl
          (fun h e => MapHeap.assign h heap.length e.1 e.2) (heap ++ [[]]) := by
    simp only [buildToolCapability.copyParams, MapHeap.make, List.foldl_map]
  have hp : heap.length < (heap ++ [[]] : MapHeap).length := by simp
  obtain ⟨h1, h2, h3⟩ := copy_loop_heap (heap ++ [[]]) heap.length hp
    ((ro.range 0 (heap.read toolParams)).map (heap.read toolParams).get)
  have hnew : MapHeap.read (heap ++ [[]]) heap.length = [] := by
    simp [MapHeap.read, List.getD_eq_getElem?_getD]
  have hold : MapHeap.read (heap ++ [[]]) toolParams = heap.read toolParams := by
    simp [MapHeap.read, List.getD_eq_getElem?_getD, List.getElem?_append_left hvalid]
  refine ⟨rfl, ?_, ?_, ?_⟩
  · rw [hfold, h1, hnew, List.foldl_map]
  · rw [hfold, h2 toolParams (Nat.ne_of_lt hvalid), hold]
  · rw [hfold, h3]
    exact hp

/-! ## Theorems: discovery -/

/-- C11: for every tool whose `Parameters()` map has pairwise distinct keys and
lives in the map object `toolParams`, the `Parameters` map of
`buildToolCapability(tool)` has exactly the keys and `Param` values of
`tool.Parameters()`, and it is a separate map object `params`: any change of
that object (an insertion or a change of an entry by `m[k] = v`, a deletion by
`delete(m, k)`, or any other) is seen in the descriptor's map and leaves the
map returned by the tool as it was. -/
theorem capability_parameters_copy (ro : RangeOrder) (tool : Tool) (heap : MapHeap)
    (toolParams : Nat) (after : MapHeap) (params : Nat)
    (hvalid : toolParams < heap.length) (hsrc : heap.read toolParams = tool.Parameters)
    (hnd : tool.Parameters.keys.Nodup)
    (hcopy : buildToolCapability.copyParams ro heap toolParams = (after, params)) :
    (∀ k, (buildToolCapability ro tool).Parameters.get? k = tool.Parameters.get? k) ∧
    after.read params = (buildToolCapability ro tool).Parameters ∧
    after.read toolParams = tool.Parameters ∧
    params ≠ toolParams ∧
    (∀ f, (after.update params f).read params = f (after.read params) ∧
      (after.update params f).read toolParams = tool.Parameters) ∧
    (∀ k v, (after.assign params k v).read toolParams = tool.Parameters) ∧
    (∀ k, (after.delete params k).read toolParams = tool.Parameters) := by
  obtain ⟨h1, h2, h3, h4⟩ := copyParams_spec ro heap toolParams hvalid
  rw [hcopy] at h1 h2 h3 h4
  simp only at h1 h2 h3 h4
  subst h1
  have hne : toolParams ≠ heap.length := Nat.ne_of_lt hvalid
  have hframe : ∀ f, (after.update heap.length f).read toolParams = tool.Parameters := by
    intro f
    rw [MapHeap.read_update_of_ne after hne f, h3, hsrc]
  refine ⟨buildToolCapability_parameters_get? ro tool hnd, ?_, by rw [h3, hsrc], hne.symm,
    fun f => ⟨MapHeap.read_update_self after h4 f, hframe f⟩, fun k v => hframe _,
    fun k => hframe _⟩
  rw [h2, buildToolCapability_parameters, ← hsrc]

/-- C11 at the tool `WebTools`, its parameter map being the only map object. -/
theorem capability_parameters_copy_witness :
    ((0 : Nat) < [NewWebTools.Parameters].length ∧
      MapHeap.read [NewWebTools.Parameters] 0 = NewWebTools.Parameters ∧
      NewWebTools.Parameters.keys.Nodup ∧
      buildToolCapability.copyParams RangeOrder.stored [NewWebTools.Parameters] 0
        = ([NewWebTools.Parameters, [("operation", ⟨"string", true, ""⟩)]], 1)) ∧
    (MapHeap.read [NewWebTools.Parameters, [("operation", ⟨"string", true, ""⟩)]] 1
        = (buildToolCapability RangeOrder.stored NewWebTools).Parameters ∧
      ∀ k, (MapHeap.delete [NewWebTools.Parameters, [("operation", ⟨"string", true, ""⟩)]] 1
        k).read 0 = NewWebTools.Parameters) :=
  ⟨⟨by decide, rfl, by decide, by decide⟩,
    (capability_parameters_copy RangeOrder.stored NewWebTools [NewWebTools.Parameters] 0
      [NewWebTools.Parameters, [("operation", ⟨"string", true, ""⟩)]] 1
      (by decide) rfl (by decide) (by decide)).2.1,
    (capability_parameters_copy RangeOrder.stored NewWebTools [NewWebTools.Parameters] 0
      [NewWebTools.Parameters, [("operation", ⟨"string", true, ""⟩)]] 1
      (by decide) rfl (by decide) (by decide)).2.2.2.2.2.2⟩

/-- C12: for every iteration order, discovery returns exactly one descriptor
per registry entry (the descriptors of the entries, each entry taken once);
with the registry built by `main` these are two descriptors, named `WebTools`
and `FinanceTools`, each with exactly one child descriptor, named `BraveSearch`
and `YahooStockPrice` respectively, that has no children. -/
theorem discovery_descriptors (ro : RangeOrder) (toolRegistry : GoMap Tool) :
    (handleToolsRequest.capabilities ro toolRegistry).length = toolRegistry.length ∧
    (∃ order : List (Fin toolRegistry.length),
      order.Perm (List.finRange toolRegistry.length) ∧
      handleToolsRequest.capabilities ro toolRegistry
        = order.map (fun i => buildToolCapability (ro.visit 0 i.val) (toolRegistry.get i).2)) ∧
    ∃ w f b y, (handleToolsRequest.capabilities ro main.toolRegistry).Perm [w, f] ∧
      w.Name = "WebTools" ∧ w.SubTools = [b] ∧ b.Name = "BraveSearch" ∧ b.SubTools = [] ∧
      f.Name = "FinanceTools" ∧ f.SubTools = [y] ∧ y.Name = "YahooStockPrice" ∧
      y.SubTools = [] := by
  refine ⟨?_, ⟨ro.range 0 toolRegistry, ro.range_perm 0 toolRegistry, rfl⟩, ?_⟩
  · simp [handleToolsRequest.capabilities, ro.range_length]
  · refine ⟨buildToolCapability (ro.visit 0 0) NewWebTools,
      buildToolCapability (ro.visit 0 1) NewFinanceTools,
      buildToolCapability ((ro.visit 0 0).visit 1 0) braveWebSearchTool,
      buildToolCapability ((ro.visit 0 1).visit 1 0) yahooStockPriceTool, ?_,
      buildToolCapability_name _ _,
      buildToolCapability_subTools_single _ _ "BraveSearch" _ NewWebTools_subTools,
      buildToolCapability_name _ _, buildToolCapability_subTools_nil _ _ rfl,
      buildToolCapability_name _ _,
      buildToolCapability_subTools_single _ _ "YahooStockPrice" _ NewFinanceTools_subTools,
      buildToolCapability_name _ _, buildToolCapability_subTools_nil _ _ rfl⟩
    rw [main_toolRegistry_eq]
    rcases capabilities_two ro ("WebTools", NewWebTools) ("FinanceTools", NewFinanceTools)
      with h | h
    · rw [h]
    · rw [h]
      exact List.Perm.swap _ _ _

/-- The names of the descriptors that discovery lists are the names of the
registered tools, in the order in which the runtime visits the registry. -/
theorem capabilities_names_perm (ro : RangeOrder) (toolRegistry : GoMap Tool) :
    ((handleToolsRequest.capabilities ro toolRegistry).map ToolCapability.Name).Perm
      (toolRegistry.map (fun e => e.2.Name)) := by
  have h1 : (handleToolsRequest.capabilities ro toolRegistry).map ToolCapability.Name
      = (ro.range 0 toolRegistry).map (fun i => (toolRegistry.get i).2.Name) := by
    simp [handleToolsRequest.capabilities, buildToolCapability_name]
  have h2 : toolRegistry.map (fun e => e.2.Name)
      = (List.finRange toolRegistry.length).map (fun i => (toolRegistry.get i).2.Name) := by
    conv_lhs => rw [← List.finRange_map_get toolRegistry]
    rw [List.map_map]
    rfl
  rw [h1, h2]
  exact (ro.range_perm 0 toolRegistry).map _

/-- The names of the child descriptors of a tool are the names of its children,
in the order in which the runtime visits them. -/
theorem subTools_names_perm (ro : RangeOrder) (tool : Tool) :
    ((buildToolCapability ro tool).SubTools.map ToolCapability.Name).Perm
      (tool.SubTools.map (fun e => e.2.Name)) := by
  have h1 : (buildToolCapability ro tool).SubTools.map ToolCapability.Name
      = (ro.range 1 tool.SubTools).map (fun i => (tool.SubTools.get i).2.Name) := by
    simp [buildToolCapability_subTools, buildToolCapability_name]
  have h2 : tool.SubTools.map (fun e => e.2.Name)
      = (List.finRange tool.SubTools.length).map (fun i => (tool.SubTools.get i).2.Name) := by
    conv_lhs => rw [← List.finRange_map_get tool.SubTools]
    rw [List.map_map]
    rfl
  rw [h1, h2]
  exact (ro.range_perm 1 tool.SubTools).map _

theorem capabilities_stored_names :
    (handleToolsRequest.capabilities RangeOrder.stored main.toolRegistry).map ToolCapability.Name
      = ["WebTools", "FinanceTools"] := by
  have h : handleToolsRequest.capabilities RangeOrder.stored main.toolRegistry
      = [buildToolCapability (RangeOrder.stored.visit 0 0) NewWebTools,
          buildToolCapability (RangeOrder.stored.visit 0 1) NewFinanceTools] := rfl
  rw [h]
  simp only [List.map_cons, List.map_nil, buildToolCapability_name]
  rfl

theorem capabilities_reversed_names :
    (handleToolsRequest.capabilities RangeOrder.reversed main.toolRegistry).map ToolCapability.Name
      = ["FinanceTools", "WebTools"] := by
  have h : handleToolsRequest.capabilities RangeOrder.reversed main.toolRegistry
      = [buildToolCapability (RangeOrder.reversed.visit 0 1) NewFinanceTools,
          buildToolCapability (RangeOrder.reversed.visit 0 0) NewWebTools] := rfl
  rw [h]
  simp only [List.map_cons, List.map_nil, buildToolCapability_name]
  rfl

/-- C14, as stated, fails: two discovery runs over the registry built by `main`,
one visiting the registry map in the order of its entries and one in the
reverse order, list the descriptors in different sequences. -/
theorem discovery_order_differs :
    (handleToolsRequest.capabilities RangeOrder.stored main.toolRegistry).map ToolCapability.Name
      = ["WebTools", "FinanceTools"] ∧
    (handleToolsRequest.capabilities RangeOrder.reversed main.toolRegistry).map
        ToolCapability.Name
      = ["FinanceTools", "WebTools"] ∧
    handleToolsRequest.capabilities RangeOrder.stored main.toolRegistry
      ≠ handleToolsRequest.capabilities RangeOrder.reversed main.toolRegistry := by
  refine ⟨capabilities_stored_names, capabilities_reversed_names, fun h => ?_⟩
  have h' := congrArg (List.map ToolCapability.Name) h
  rw [capabilities_stored_names, capabilities_reversed_names] at h'
  exact absurd h' (by decide)

/-- C14, amended: the descriptors are listed in the order in which the runtime
visits the map, which the tools do not determine; two discovery runs over the
same registry list the same number of descriptors, with the same names up to
order, at the top level and among the children of every tool. -/
theorem discovery_runs_agree_up_to_order (ro ro' : RangeOrder) (toolRegistry : GoMap Tool)
    (tool : Tool) :
    (handleToolsRequest.capabilities ro toolRegistry).length
      = (handleToolsRequest.capabilities ro' toolRegistry).length ∧
    ((handleToolsRequest.capabilities ro toolRegistry).map ToolCapability.Name).Perm
      ((handleToolsRequest.capabilities ro' toolRegistry).map ToolCapability.Name) ∧
    ((buildToolCapability ro tool).SubTools.map ToolCapability.Name).Perm
      ((buildToolCapability ro' tool).SubTools.map ToolCapability.Name) := by
  refine ⟨?_, ?_, ?_⟩
  · simp [handleToolsRequest.capabilities, RangeOrder.range_length]
  · exact (capabilities_names_perm ro toolRegistry).trans
      (capabilities_names_perm ro' toolRegistry).symm
  · exact (subTools_names_perm ro tool).trans (subTools_names_perm ro' tool).symm

/-- The copy of a parameter map with a single entry. -/
theorem buildToolCapability_parameters_single (ro : RangeOrder) (tool : Tool)
    (e : String × Param) (h : tool.Parameters = [e]) :
    (buildToolCapability ro tool).Parameters = [e] := by
  cases tool with
  | mk n d p x s =>
    simp only [Tool.Parameters] at h
    subst h
    rw [buildToolCapability_parameters]
    simp only [Tool.Parameters]
    rw [RangeOrder.range_one]
    rfl

/-- C15: the parameter schema of every `WebTools` and of every `FinanceTools`
declares the selector: `Parameters()` binds `operation` to a `Param` of type
`string` with `Required = true`, and so does the `Parameters` map of the
capability descriptor built from the tool, whatever the iteration order. -/
theorem composite_declares_operation (ro : RangeOrder) (subTools : GoMap Tool) :
    (WebTools subTools).Parameters.get? "operation" = some ⟨"string", true, ""⟩ ∧
    (FinanceTools subTools).Parameters.get? "operation" = some ⟨"string", true, ""⟩ ∧
    (buildToolCapability ro (WebTools subTools)).Parameters.get? "operation"
      = some ⟨"string", true, ""⟩ ∧
    (buildToolCapability ro (FinanceTools subTools)).Parameters.get? "operation"
      = some ⟨"string", true, ""⟩ := by
  refine ⟨rfl, rfl, ?_, ?_⟩
  · rw [buildToolCapability_parameters_single ro (WebTools subTools)
      ("operation", ⟨"string", true, ""⟩) rfl]
    rfl
  · rw [buildToolCapability_parameters_single ro (FinanceTools subTools)
      ("operation", ⟨"string", true, ""⟩) rfl]
    rfl

/-! ## Theorems: leaf tools -/

/-- The leaf `YahooStockPrice` reads the parameters it declares and no other. -/
theorem yahoo_execute_congr (env : Env) (p q : Params)
    (h : ∀ k ∈ yahooStockPriceTool.Parameters.keys, p.get? k = q.get? k) :
    yahooStockPriceTool.Execute env p = yahooStockPriceTool.Execute env q := by
  have h1 := h "ticker" (by decide)
  have h2 := h "interval" (by decide)
  have h3 := h "period" (by decide)
  simp only [yahooStockPriceTool.Execute, assertString, h1, h2, h3]

/-- C16: the leaf tools tolerate extra parameters: for `BraveSearch` and for
`YahooStockPrice`, two parameter mappings that agree on the keys the tool
declares give the same outcome of `Execute`, validation error or request sent
(with its URL) and what follows from the same answer alike, whatever other
keys they hold; and adding an entry under a key the tool does not declare
changes nothing, so it never causes a failure. -/
theorem leaf_tolerates_extra_parameters (env : Env) (t : Tool) (p q : Params)
    (ht : t = braveWebSearchTool ∨ t = yahooStockPriceTool)
    (h : ∀ k ∈ t.Parameters.keys, p.get? k = q.get? k) :
    t.Execute env p = t.Execute env q ∧
    ∀ k v, k ∉ t.Parameters.keys → t.Execute env (p.set k v) = t.Execute env p := by
  rcases ht with rfl | rfl
  · refine ⟨braveWebSearchTool.Execute_congr env p q h, fun k v hk => ?_⟩
    apply braveWebSearchTool.Execute_congr
    intro k' hk'
    exact GoMap.get?_set_of_ne p v (fun e => hk (e ▸ hk'))
  · refine ⟨yahoo_execute_congr env p q h, fun k v hk => ?_⟩
    apply yahoo_execute_congr
    intro k' hk'
    exact GoMap.get?_set_of_ne p v (fun e => hk (e ▸ hk'))

/-- C16 at `BraveSearch`, with and without the entry `operation`. -/
theorem leaf_tolerates_extra_parameters_witness :
    ((braveWebSearchTool = braveWebSearchTool ∨ braveWebSearchTool = yahooStockPriceTool) ∧
      ∀ k ∈ braveWebSearchTool.Parameters.keys,
        GoMap.get? [("operation", Value.str "BraveSearch"), ("query", Value.str "acme")] k
          = GoMap.get? [("query", Value.str "acme")] k) ∧
    (braveWebSearchTool.Execute Env.offline
        [("operation", Value.str "BraveSearch"), ("query", Value.str "acme")]
      = braveWebSearchTool.Execute Env.offline [("query", Value.str "acme")] ∧
    ∀ k v, k ∉ braveWebSearchTool.Parameters.keys →
      braveWebSearchTool.Execute Env.offline
          (GoMap.set [("operation", Value.str "BraveSearch"), ("query", Value.str "acme")] k v)
        = braveWebSearchTool.Execute Env.offline
          [("operation", Value.str "BraveSearch"), ("query", Value.str "acme")]) :=
  ⟨⟨Or.inl rfl, by decide⟩,
    leaf_tolerates_extra_parameters Env.offline braveWebSearchTool
      [("operation", Value.str "BraveSearch"), ("query", Value.str "acme")]
      [("query", Value.str "acme")] (Or.inl rfl) (by decide)⟩

/-! ## Theorems: totality of the path walk -/

/-- A walk from a tool of the registry reads the children of tools of the
registry only, and ends on a tool of the registry when it ends on a tool. -/
theorem walk_registered (toolRegistry : GoMap Tool) (tool : Tool) (parts : List String)
    (ht : Registered toolRegistry tool) :
    (∀ found, (handleInvokeRequest.walk tool parts).1 = some found →
      Registered toolRegistry found) ∧
    ∀ t part, Event.subTools t part ∈ (handleInvokeRequest.walk tool parts).2 →
      Registered toolRegistry t := by
  induction parts generalizing tool with
  | nil =>
    refine ⟨fun found h => ?_, fun t part h => ?_⟩
    · simp only [walk_nil, Option.some.injEq] at h
      exact h ▸ ht
    · simp [walk_nil] at h
  | cons part rest ih =>
    cases hsub : tool.SubTools.get? part with
    | none =>
      rw [walk_cons_none rest hsub]
      refine ⟨fun found h => by simp at h, fun t p h => ?_⟩
      simp only [List.mem_singleton, Event.subTools.injEq] at h
      exact h.1 ▸ ht
    | some sub =>
      obtain ⟨h1, h2⟩ := ih sub (Registered.sub tool part sub ht hsub)
      rw [walk_cons_some rest hsub]
      refine ⟨h1, fun t p h => ?_⟩
      rcases List.mem_cons.mp h with h | h
      · simp only [Event.subTools.injEq] at h
        exact h.1 ▸ ht
      · exact h2 t p h

/-- The events of `handleInvokeRequest.execute`: the call of `Execute` and its effects. -/
theorem execute_events (senv : ServerEnv) (tool : Tool) (params : Params) :
    (handleInvokeRequest.execute senv tool params).2
      = Event.execute tool params :: (tool.Execute senv.tools params).trace.map Event.effect := by
  unfold handleInvokeRequest.execute
  simp only
  split
  · rfl
  · rfl
  · split <;> rfl

/-- C17: the path walk is total: for every registry and every path string the
walk ends on a tool that the registry holds, or in the tool-not-found failure,
or in the sub-tool-not-found failure (never in a panic); every `SubTools()` map
it reads is that of a tool the registry holds, and the only `Execute` the
handler calls is that of the tool the walk ended on, a tool the registry
holds. -/
theorem path_walk_total (senv : ServerEnv) (toolRegistry : GoMap Tool) (request : MCPRequest) :
    ((∃ tool, (handleInvokeRequest.resolve toolRegistry request.Tool).1 = .ok tool ∧
        Registered toolRegistry tool) ∨
      (handleInvokeRequest.resolve toolRegistry request.Tool).1
        = .error (Response.error ("Tool '" ++ request.Tool ++ "' not found") 404) ∨
      (handleInvokeRequest.resolve toolRegistry request.Tool).1
        = .error (Response.error ("Sub-tool '" ++ request.Tool ++ "' not found") 404)) ∧
    (∀ t part, Event.subTools t part ∈ (handleInvokeRequest.resolve toolRegistry request.Tool).2 →
      Registered toolRegistry t) ∧
    ∀ t params, Event.execute t params ∈ (handleInvokeRequest.invoke senv toolRegistry request).2 →
      (handleInvokeRequest.resolve toolRegistry request.Tool).1 = .ok t ∧
      params = request.Parameters ∧ Registered toolRegistry t := by
  obtain ⟨first, rest, hsplit⟩ : ∃ first rest, splitToolPath request.Tool = first :: rest := by
    cases h : splitToolPath request.Tool with
    | nil => exact absurd h (splitToolPath_ne_nil _)
    | cons a b => exact ⟨a, b, rfl⟩
  cases hreg : toolRegistry.get? first with
  | none =>
    have hres : handleInvokeRequest.resolve toolRegistry request.Tool
        = (.error (Response.error ("Tool '" ++ request.Tool ++ "' not found") 404),
            [Event.registryLookup first]) := by
      simp [handleInvokeRequest.resolve, hsplit, hreg]
    refine ⟨Or.inr (Or.inl (by rw [hres])), ?_, ?_⟩
    · intro t part h
      simp [hres] at h
    · intro t params h
      simp [handleInvokeRequest.invoke, hres] at h
  | some tool =>
    have ht : Registered toolRegistry tool := Registered.top first tool hreg
    obtain ⟨hw1, hw2⟩ := walk_registered toolRegistry tool rest ht
    cases hwalk : handleInvokeRequest.walk tool rest with
    | mk found events =>
      rw [hwalk] at hw1 hw2
      cases found with
      | none =>
        have hres : handleInvokeRequest.resolve toolRegistry request.Tool
            = (.error (Response.error ("Sub-tool '" ++ request.Tool ++ "' not found") 404),
                Event.registryLookup first :: events) := by
          simp [handleInvokeRequest.resolve, hsplit, hreg, hwalk]
        have hall := (walk_events tool rest).2.2
        rw [hwalk] at hall
        refine ⟨Or.inr (Or.inr (by rw [hres])), ?_, ?_⟩
        · intro t part h
          rw [hres] at h
          rcases List.mem_cons.mp h with h | h
          · cases h
          · exact hw2 t part h
        · intro t params h
          simp only [handleInvokeRequest.invoke, hres] at h
          rcases List.mem_cons.mp h with h | h
          · cases h
          · obtain ⟨t', part, h'⟩ := hall _ h
            cases h'
      | some found =>
        have hres : handleInvokeRequest.resolve toolRegistry request.Tool
            = (.ok found, Event.registryLookup first :: events) := by
          simp [handleInvokeRequest.resolve, hsplit, hreg, hwalk]
        have hall := (walk_events tool rest).2.2
        rw [hwalk] at hall
        refine ⟨Or.inl ⟨found, by rw [hres], hw1 found rfl⟩, ?_, ?_⟩
        · intro t part h
          rw [hres] at h
          rcases List.mem_cons.mp h with h | h
          · cases h
          · exact hw2 t part h
        · intro t params h
          simp only [handleInvokeRequest.invoke, hres, execute_events] at h
          rcases List.mem_cons.mp h with h | h
          · cases h
          · rcases List.mem_append.mp h with h | h
            · obtain ⟨t', part, h'⟩ := hall _ h
              cases h'
            · rcases List.mem_cons.mp h with h | h
              · simp only [Event.execute.injEq] at h
                obtain ⟨rfl, rfl⟩ := h
                exact ⟨by rw [hres], rfl, hw1 _ rfl⟩
              · simp at h

/-- The walk on paths deeper than the tree and on paths with empty segments, in
the registry built by `main`. -/
theorem path_walk_examples :
    (handleInvokeRequest.resolve main.toolRegistry "WebTools.BraveSearch.X").1
      = .error (Response.error "Sub-tool 'WebTools.BraveSearch.X' not found" 404) ∧
    (handleInvokeRequest.resolve main.toolRegistry "WebTools.").1
      = .error (Response.error "Sub-tool 'WebTools.' not found" 404) ∧
    (handleInvokeRequest.resolve main.toolRegistry "..").1
      = .error (Response.error "Tool '..' not found" 404) := by
  refine ⟨rfl, rfl, rfl⟩

/-! ## Theorems: splitting a path -/

theorem splitChars_no_sep (sep : Char) (cs : List Char) :
    ∀ seg ∈ splitChars sep cs, sep ∉ seg := by
  induction cs with
  | nil => simp [splitChars]
  | cons c cs ih =>
    by_cases hc : c = sep
    · intro seg hseg
      simp only [splitChars, hc, if_true, List.mem_cons] at hseg
      rcases hseg with rfl | hseg
      · simp
      · exact ih seg hseg
    · cases hs : splitChars sep cs with
      | nil => exact absurd hs (splitChars_ne_nil sep cs)
      | cons s rest =>
        rw [hs] at ih
        intro seg hseg
        simp only [splitChars, hc, if_false, hs, List.mem_cons] at hseg
        have hne : ¬ sep = c := fun e => hc e.symm
        rcases hseg with rfl | hseg
        · have := ih s (List.mem_cons_self _ _)
          simp [hne, this]
        · exact ih seg (List.mem_cons_of_mem _ hseg)

theorem splitChars_length (sep : Char) (cs : List Char) :
    (splitChars sep cs).length = cs.count sep + 1 := by
  induction cs with
  | nil => simp [splitChars]
  | cons c cs ih =>
    by_cases hc : c = sep
    · simp [splitChars, hc, ih]
    · cases hs : splitChars sep cs with
      | nil => exact absurd hs (splitChars_ne_nil sep cs)
      | cons s rest =>
        rw [hs] at ih
        have hne : (c == sep) = false := by simp [hc]
        simp only [splitChars, hc, if_false, hs, List.length_cons, List.count_cons, hne] at ih ⊢
        simpa using ih

theorem joinChars_splitChars (sep : Char) (cs : List Char) :
    joinChars sep (splitChars sep cs) = cs := by
  induction cs with
  | nil => simp [splitChars, joinChars]
  | cons c cs ih =>
    cases hs : splitChars sep cs with
    | nil => exact absurd hs (splitChars_ne_nil sep cs)
    | cons s rest =>
      rw [hs] at ih
      by_cases hc : c = sep
      · simp only [splitChars, hc, if_true, hs, joinChars, List.nil_append, ih]
      · simp only [splitChars, hc, if_false, hs]
        cases rest with
        | nil =>
          simp only [joinChars] at ih ⊢
          rw [ih]
        | cons r rest' =>
          simp only [joinChars, List.cons_append] at ih ⊢
          rw [ih]

/-- C18: for every string `p`, `splitToolPath(p)` is a non-empty list of
segments none of which contains a dot, whose length is one more than the number
of dots in `p` and whose join with `.` is `p`; so the first segment exists, the
access `toolParts[0]` is in bounds and the walk never panics; for the empty
string the list is the single empty segment. -/
theorem splitToolPath_spec (p : String) :
    splitToolPath p ≠ [] ∧
    (∀ seg ∈ splitToolPath p, '.' ∉ seg.toList) ∧
    (splitToolPath p).length = p.toList.count '.' + 1 ∧
    joinToolPath (splitToolPath p) = p ∧
    (∃ first, (splitToolPath p)[0]? = some first) ∧
    (∀ (toolRegistry : GoMap Tool) (msg : String),
      (handleInvokeRequest.resolve toolRegistry p).1 ≠ .error (Response.aborted msg)) ∧
    splitToolPath "" = [""] := by
  refine ⟨splitToolPath_ne_nil p, ?_, ?_, ?_, ?_, ?_, by decide⟩
  · intro seg hseg
    simp only [splitToolPath, List.mem_map] at hseg
    obtain ⟨cs, hcs, rfl⟩ := hseg
    exact splitChars_no_sep '.' p.toList cs hcs
  · simp [splitToolPath, splitChars_length]
  · have hmap : (splitToolPath p).map String.toList = splitChars '.' p.toList := by
      simp [splitToolPath, List.map_map, Function.comp_def]
    simp only [joinToolPath, hmap, joinChars_splitChars]
    rfl
  · cases h : splitToolPath p with
    | nil => exact absurd h (splitToolPath_ne_nil p)
    | cons a b => exact ⟨a, by simp⟩
  · intro toolRegistry msg
    cases h : splitToolPath p with
    | nil => exact absurd h (splitToolPath_ne_nil p)
    | cons first rest =>
      simp only [handleInvokeRequest.resolve, h]
      cases toolRegistry.get? first with
      | none => simp
      | some tool =>
        simp only
        cases hw : handleInvokeRequest.walk tool rest with
        | mk found events =>
          cases found <;> simp

/-! ## Theorems: the price loop -/

theorem index_of_lt {α : Type} (xs : List α) (i : Nat) (h : i < xs.length) :
    index xs i = .ok (xs.get ⟨i, h⟩) := by
  simp [index, List.getElem?_eq_getElem h]

/-- The body of the price loop at an index that every series has. -/
theorem entry_of_lt (env : Env) (result : ChartResult) (quote : Quote) (rest : List Quote)
    (hq : result.Quote = quote :: rest) (i : Nat) (ht : i < result.Timestamp.length)
    (hO : i < quote.Open.length) (hH : i < quote.High.length) (hL : i < quote.Low.length)
    (hC : i < quote.Close.length) (hV : i < quote.Volume.length) :
    yahooStockPriceTool.entry env result i
      = .ok ⟨env.formatDate (result.Timestamp.get ⟨i, ht⟩), quote.Open.get ⟨i, hO⟩,
          quote.High.get ⟨i, hH⟩, quote.Low.get ⟨i, hL⟩, quote.Close.get ⟨i, hC⟩,
          quote.Volume.get ⟨i, hV⟩⟩ := by
  have h0 : index result.Quote 0 = .ok quote := by
    rw [hq]
    simp [index]
  simp only [yahooStockPriceTool.entry, index_of_lt _ i ht, h0, index_of_lt _ i hO,
    index_of_lt _ i hH, index_of_lt _ i hL, index_of_lt _ i hC, index_of_lt _ i hV,
    bind, Except.bind, pure, Except.pure]

/-- When every series of the first quote has an element at each index the loop
visits, the price loop yields one entry per visited index, entry `i` taken from
index `i` of the timestamps and of the series. -/
theorem price_loop_of_long_series (env : Env) (result : ChartResult) (quote : Quote)
    (rest : List Quote) (hq : result.Quote = quote :: rest)
    (hO : min result.Timestamp.length 5 ≤ quote.Open.length)
    (hH : min result.Timestamp.length 5 ≤ quote.High.length)
    (hL : min result.Timestamp.length 5 ≤ quote.Low.length)
    (hC : min result.Timestamp.length 5 ≤ quote.Close.length)
    (hV : min result.Timestamp.length 5 ≤ quote.Volume.length) :
    ∃ prices, yahooStockPriceTool.loop env result 0 [] = .ok prices ∧
      prices.length = min result.Timestamp.length 5 ∧
      ∀ i, i < min result.Timestamp.length 5 → ∃ e, prices[i]? = some e ∧
        some e.Date = result.Timestamp[i]?.map env.formatDate ∧
        some e.Open = quote.Open[i]? ∧ some e.High = quote.High[i]? ∧
        some e.Low = quote.Low[i]? ∧ some e.Close = quote.Close[i]? ∧
        some e.Volume = quote.Volume[i]? := by
  have key : ∀ k i prices, i + k = min result.Timestamp.length 5 →
      ∃ more, yahooStockPriceTool.loop env result i prices = .ok (prices ++ more) ∧
        more.length = k ∧
        ∀ j, j < k → ∃ e, more[j]? = some e ∧
          some e.Date = result.Timestamp[i + j]?.map env.formatDate ∧
          some e.Open = quote.Open[i + j]? ∧ some e.High = quote.High[i + j]? ∧
          some e.Low = quote.Low[i + j]? ∧ some e.Close = quote.Close[i + j]? ∧
          some e.Volume = quote.Volume[i + j]? := by
    intro k
    induction k with
    | zero =>
      intro i prices hi
      refine ⟨[], ?_, rfl, fun j hj => absurd hj (Nat.not_lt_zero j)⟩
      rw [yahooStockPriceTool.loop]
      have : ¬ (i < result.Timestamp.length ∧ i < 5) := by omega
      simp [this]
    | succ k ih =>
      intro i prices hi
      have ht : i < result.Timestamp.length := by omega
      have h5 : i < 5 := by omega
      have hO' : i < quote.Open.length := by omega
      have hH' : i < quote.High.length := by omega
      have hL' : i < quote.Low.length := by omega
      have hC' : i < quote.Close.length := by omega
      have hV' : i < quote.Volume.length := by omega
      obtain ⟨e0, hent, hprops⟩ : ∃ e0, yahooStockPriceTool.entry env result i = .ok e0 ∧
          (some e0.Date = result.Timestamp[i]?.map env.formatDate ∧
            some e0.Open = quote.Open[i]? ∧ some e0.High = quote.High[i]? ∧
            some e0.Low = quote.Low[i]? ∧ some e0.Close = quote.Close[i]? ∧
            some e0.Volume = quote.Volume[i]?) :=
        ⟨_, entry_of_lt env result quote rest hq i ht hO' hH' hL' hC' hV', by
          simp [List.getElem?_eq_getElem ht, List.getElem?_eq_getElem hO',
            List.getElem?_eq_getElem hH', List.getElem?_eq_getElem hL',
            List.getElem?_eq_getElem hC', List.getElem?_eq_getElem hV']⟩
      obtain ⟨more, hloop, hlen, hall⟩ := ih (i + 1) (prices ++ [e0]) (by omega)
      refine ⟨e0 :: more, ?_, by simp [hlen], ?_⟩
      · rw [yahooStockPriceTool.loop]
        simp only [ht, h5, and_self, if_true, hent, hloop, List.append_assoc,
          List.singleton_append]
      · intro j hj
        cases j with
        | zero => exact ⟨e0, by simp, hprops⟩
        | succ j =>
          obtain ⟨e, he, hrest⟩ := hall j (by omega)
          refine ⟨e, by simpa using he, ?_⟩
          have hidx : i + (j + 1) = i + 1 + j := by omega
          rw [hidx]
          exact hrest
  obtain ⟨more, hloop, hlen, hall⟩ := key (min result.Timestamp.length 5) 0 [] (by omega)
  refine ⟨more, by simpa using hloop, hlen, fun i hi => ?_⟩
  simpa using hall i hi

/-- C19 fails on the code: a parsed response with one result, no error, one
timestamp and a quote object without series passes the guards, and the price
loop then panics at `quote.Open[0]`, index out of range; no entry is built.
The handler is aborted by the panic. -/
theorem price_loop_panics_on_short_series :
    (Env.quoteWithoutSeries.unmarshalChart "chart"
        = .ok ⟨[⟨[1700000000], [⟨[], [], [], [], []⟩]⟩], none⟩ ∧
      ([⟨[1700000000], [⟨[], [], [], [], []⟩]⟩] : List ChartResult).length ≠ 0 ∧
      ([1700000000] : List Int).length ≠ 0 ∧
      ([⟨[], [], [], [], []⟩] : List Quote).length ≠ 0) ∧
    yahooStockPriceTool.loop Env.quoteWithoutSeries ⟨[1700000000], [⟨[], [], [], [], []⟩]⟩ 0 []
      = .error "runtime error: index out of range [0] with length 0" ∧
    yahooStockPriceTool.Execute Env.quoteWithoutSeries
        [("ticker", Value.str "ACME"), ("interval", Value.str "1d")]
      = ⟨Returned.panic "runtime error: index out of range [0] with length 0",
          [Effect.httpGet
            ⟨"https://query1.finance.yahoo.com/v8/finance/chart/ACME?interval=1d&range=1mo&includePrePost=false",
              [("Accept", "application/json"), ("User-Agent", "mcp-server-go/1.0")]⟩]⟩ ∧
    (handleInvokeRequest.invoke { ServerEnv.offline with tools := Env.quoteWithoutSeries }
        main.toolRegistry
        ⟨"FinanceTools.YahooStockPrice",
          [("ticker", Value.str "ACME"), ("interval", Value.str "1d")]⟩).1
      = Response.aborted "runtime error: index out of range [0] with length 0" := by
  have hloop : yahooStockPriceTool.loop Env.quoteWithoutSeries
      ⟨[1700000000], [⟨[], [], [], [], []⟩]⟩ 0 []
      = .error "runtime error: index out of range [0] with length 0" := by
    rw [yahooStockPriceTool.loop]
    rfl
  have hexec : yahooStockPriceTool.Execute Env.quoteWithoutSeries
        [("ticker", Value.str "ACME"), ("interval", Value.str "1d")]
      = ⟨Returned.panic "runtime error: index out of range [0] with length 0",
          [Effect.httpGet
            ⟨"https://query1.finance.yahoo.com/v8/finance/chart/ACME?interval=1d&range=1mo&includePrePost=false",
              [("Accept", "application/json"), ("User-Agent", "mcp-server-go/1.0")]⟩]⟩ := by
    have h : yahooStockPriceTool.Execute Env.quoteWithoutSeries
        [("ticker", Value.str "ACME"), ("interval", Value.str "1d")]
        = yahooStockPriceTool.respond Env.quoteWithoutSeries "ACME" "1d" "1mo"
            ⟨[⟨[1700000000], [⟨[], [], [], [], []⟩]⟩], none⟩
            [Effect.httpGet
              ⟨"https://query1.finance.yahoo.com/v8/finance/chart/ACME?interval=1d&range=1mo&includePrePost=false",
                [("Accept", "application/json"), ("User-Agent", "mcp-server-go/1.0")]⟩] := by
      rfl
    rw [h]
    simp only [yahooStockPriceTool.respond, index]
    simp [hloop]
  refine ⟨⟨rfl, by decide, by decide, by decide⟩, hloop, hexec, ?_⟩
  have hres : handleInvokeRequest.resolve main.toolRegistry "FinanceTools.YahooStockPrice"
      = (.ok yahooStockPriceTool,
          [Event.registryLookup "FinanceTools",
            Event.subTools NewFinanceTools "YahooStockPrice"]) := rfl
  have hx : yahooStockPriceTool.Execute Env.quoteWithoutSeries
        [("ticker", Value.str "ACME"), ("interval", Value.str "1d")]
      = Tool.Execute yahooStockPriceTool Env.quoteWithoutSeries
        [("ticker", Value.str "ACME"), ("interval", Value.str "1d")] := rfl
  simp only [handleInvokeRequest.invoke, hres, handleInvokeRequest.execute, ← hx, hexec]

end MCP
